import Mathlib

set_option maxRecDepth 4000

/-!
Verification development for the pulse-wave trading bot core.

The embedding models the backtesting engine (`src/backtester.ts`), the shared
utility search routine (`src/utils/utils.ts`) and the live polling loop
(`src/strategy.ts`).  Files are byte sequences (`List Char`, ASCII data);
JavaScript numbers are modelled as exact rationals (`ℚ`); `Date` values are
epoch milliseconds (`ℤ`), with `none` standing for an invalid date (`NaN`
timestamp), whose comparisons are all false, exactly as in JS.
-/

namespace PulseWave

/-- The NUL character: `Buffer.alloc` zero-fills its buffer, so byte positions
past the end of the file read back as 0 after `toString`. -/
def nulChar : Char := Char.ofNat 0

def newlineChar : Char := '\n'

/-- JavaScript whitespace as consumed by `trim` / `parseInt` / `parseFloat`
(space, tab, line feed, carriage return, vertical tab, form feed). -/
def isJsSpace (c : Char) : Bool :=
  c == ' ' || c == '\t' || c == '\n' || c == '\r' || c == '\x0b' || c == '\x0c'

/-- `String.prototype.indexOf(c)`, with `none` for the JS result `-1`. -/
def indexOfChar (c : Char) : List Char → Option Nat
  | [] => none
  | x :: xs => if x == c then some 0 else (indexOfChar c xs).map (· + 1)

/-- Accumulator pass behind `lastIndexOfChar`. -/
def lastIndexOfAux (c : Char) : List Char → Nat → Option Nat → Option Nat
  | [], _, acc => acc
  | x :: xs, i, acc => lastIndexOfAux c xs (i + 1) (if x == c then some i else acc)

/-- `String.prototype.lastIndexOf(c)`, with `none` for the JS result `-1`. -/
def lastIndexOfChar (c : Char) (s : List Char) : Option Nat :=
  lastIndexOfAux c s 0 none

/-- Splitter behind `splitOnChar`; `cur` is the current piece, reversed. -/
def splitOnAux (c : Char) : List Char → List Char → List (List Char)
  | [], cur => [cur.reverse]
  | x :: xs, cur =>
    if x == c then cur.reverse :: splitOnAux c xs [] else splitOnAux c xs (x :: cur)

/-- `String.prototype.split(c)`. -/
def splitOnChar (c : Char) (s : List Char) : List (List Char) := splitOnAux c s []

/-- `String.prototype.trim()`. -/
def jsTrim (s : List Char) : List Char :=
  ((s.dropWhile isJsSpace).reverse.dropWhile isJsSpace).reverse

def isDigitChar (c : Char) : Bool := decide ('0' ≤ c) && decide (c ≤ '9')

/-- Numeric value of a decimal digit string, most significant digit first. -/
def digitsToNat (ds : List Char) : Nat :=
  ds.foldl (fun a c => a * 10 + (c.toNat - 48)) 0

/-- Leading run of decimal digits, `none` when there is none. -/
def parseLeadingDigits (s : List Char) : Option Nat :=
  let ds := s.takeWhile isDigitChar
  if ds.isEmpty then none else some (digitsToNat ds)

/-- `parseInt(s, 10)`: skip leading whitespace, optional sign, decimal digits;
`none` models the JS result `NaN`. -/
def parseIntJS (s : List Char) : Option Int :=
  match s.dropWhile isJsSpace with
  | '-' :: r => (parseLeadingDigits r).map (fun n => -(n : Int))
  | '+' :: r => (parseLeadingDigits r).map (fun n => (n : Int))
  | r => (parseLeadingDigits r).map (fun n => (n : Int))

/-- Unsigned part of `parseFloat`: digits, optionally a point and more digits
(scientific notation never occurs in this data format). -/
def parseUnsignedFloat (s : List Char) : Option ℚ :=
  let intDs := s.takeWhile isDigitChar
  match s.dropWhile isDigitChar with
  | '.' :: r =>
    let fracDs := r.takeWhile isDigitChar
    if intDs.isEmpty && fracDs.isEmpty then none
    else some ((digitsToNat intDs : ℚ) + (digitsToNat fracDs : ℚ) / (10 : ℚ) ^ fracDs.length)
  | _ => if intDs.isEmpty then none else some (digitsToNat intDs : ℚ)

/-- `parseFloat(s)`; `none` models the JS result `NaN`. -/
def parseFloatJS (s : List Char) : Option ℚ :=
  match s.dropWhile isJsSpace with
  | '-' :: r => (parseUnsignedFloat r).map (fun q => -q)
  | '+' :: r => parseUnsignedFloat r
  | r => parseUnsignedFloat r

/-! ## `binarySearchCSV` (src/utils/utils.ts lines 69-132, src/backtester.ts lines 66-129)

A positioned read of `size` bytes into a zero-filled buffer followed by
`toString` yields the file bytes in `[pos, pos+size)` and NUL for positions
past end of file. -/

def readChunk (file : List Char) (pos size : Nat) : List Char :=
  let avail := (file.drop pos).take size
  avail ++ List.replicate (size - avail.length) nulChar

/-- `firstNewLineIndex >= 0 ? firstNewLineIndex + 1 : 0`. -/
def startLineIdx (chunk : List Char) : Nat :=
  match indexOfChar newlineChar chunk with
  | some i => i + 1
  | none => 0

/-- `lastNewLineIndex >= 0 ? lastNewLineIndex : chunk.length`. -/
def endLineIdx (chunk : List Char) : Nat :=
  match lastIndexOfChar newlineChar chunk with
  | some i => i
  | none => chunk.length

/-- The rows of one scan window: read 50000 bytes, drop the possibly truncated
first and last lines (`chunk.slice(startLineIndex, endLineIndex)`), split on
newlines. -/
def windowRows (file : List Char) (readPosition : Nat) : List (List Char) :=
  let chunk := readChunk file readPosition 50000
  let relevantChunk := (chunk.take (endLineIdx chunk)).drop (startLineIdx chunk)
  splitOnChar newlineChar relevantChunk

/-- One row qualifies when it is not blank and `new Date(parseInt(row.split(',')[0]))`
is `>= targetTime`; a `NaN` timestamp gives an invalid date and every comparison
with an invalid date is false. -/
def rowQualifies (targetTime : Int) (row : List Char) : Bool :=
  if (jsTrim row).isEmpty then false
  else
    match parseIntJS (row.takeWhile (· != ',')) with
    | some t => decide (targetTime ≤ t)
    | none => false

/-- Whether some row of the window at `readPosition` has timestamp `>= targetTime`. -/
def scanWindowFound (file : List Char) (readPosition : Nat) (targetTime : Int) : Bool :=
  (windowRows file readPosition).any (rowQualifies targetTime)

/-- `Math.floor((start + end) / 2)`; in the loop both bounds are nonnegative. -/
def midOf (start : Nat) (stop : Int) : Nat := ((start : Int) + stop).toNat / 2

/-- `Math.max(mid - chunkSize / 2, 0)` with `chunkSize = 50000`. -/
def readPosOf (start : Nat) (stop : Int) : Nat := midOf start stop - 25000

/-- The `while (start <= end)` loop of `binarySearchCSV`, abstracted over the
window test `windowHit readPosition` (instantiated with `scanWindowFound` on
the file and target).  On a hit the upper bound moves to `readPosition - 1`
and the window start is remembered; on a miss the lower bound moves to
`readPosition + chunkSize`.  `foundPosition` starts as the sentinel `-1`. -/
def searchLoop (windowHit : Nat → Bool) (start : Nat) (stop : Int)
    (foundPosition : Int) : Int :=
  if h : (start : Int) ≤ stop then
    if windowHit (readPosOf start stop) then
      searchLoop windowHit start ((readPosOf start stop : Int) - 1) (readPosOf start stop : Int)
    else
      searchLoop windowHit (readPosOf start stop + 50000) stop foundPosition
  else foundPosition
termination_by (stop + 1 - (start : Int)).toNat
decreasing_by
  · simp only [readPosOf, midOf]; omega
  · simp only [readPosOf, midOf]; omega

/-- After convergence: re-read a 1000-byte window at the candidate offset and
skip to the start of the next complete line (`chunk.indexOf('\n') + 1`). -/
def finalLineAdjust (file : List Char) (foundPosition : Nat) : Int :=
  let chunk := readChunk file foundPosition 1000
  let startLineIndex : Nat :=
    match indexOfChar newlineChar chunk with
    | some i => i + 1
    | none => 0
  (foundPosition : Int) + startLineIndex

/-- `binarySearchCSV(filePath, targetTime)`: binary search over byte offsets;
returns 0 when no scan window ever contained a qualifying timestamp. -/
def binarySearchCSV (file : List Char) (targetTime : Int) : Int :=
  let foundPosition :=
    searchLoop (fun rp => scanWindowFound file rp targetTime) 0 (file.length : Int) (-1)
  if foundPosition ≠ -1 then finalLineAdjust file foundPosition.toNat else 0

/-- The timestamp field of the record that starts at byte offset `off`
(observer used to state properties about what `binarySearchCSV` points at). -/
def recordTimestampAt (file : List Char) (off : Nat) : Option Int :=
  parseIntJS ((file.drop off).takeWhile (· != ','))

/-! ## CSV streaming (`loadPricesFromPosition`, src/backtester.ts lines 144-182)

`csv-parser` with an explicit `headers` option treats every line of the stream
(which begins at `startPosition`, past the physical header) as a data row and
binds the comma-separated cells positionally to
`timestamp,open,high,low,close,volume`; blank lines yield no row. -/

structure CsvRow where
  tsRaw : List Char
  openRaw : List Char
  highRaw : List Char
  lowRaw : List Char
  closeRaw : List Char
  volumeRaw : List Char
deriving DecidableEq, Repr

def fieldAt (fields : List (List Char)) (i : Nat) : List Char :=
  (fields.get? i).getD []

def parseCsvLine (line : List Char) : CsvRow :=
  let fs := splitOnChar ',' line
  ⟨fieldAt fs 0, fieldAt fs 1, fieldAt fs 2, fieldAt fs 3, fieldAt fs 4, fieldAt fs 5⟩

def csvRowsFrom (file : List Char) (startPosition : Nat) : List CsvRow :=
  ((splitOnChar newlineChar (file.drop startPosition)).filter (fun l => !l.isEmpty)).map
    parseCsvLine

/-- A parsed price bar.  `timestamp` is `none` when the cell does not parse
(`new Date(NaN)` is an invalid date; every comparison with it is false).
A numeric cell that does not parse is NaN in JS; no claim touches such rows
and the model reads them as 0. -/
structure PriceData where
  timestamp : Option Int
  openQ : ℚ
  highQ : ℚ
  lowQ : ℚ
  closeQ : ℚ
  volumeQ : ℚ
deriving DecidableEq, Repr

def qOfField (s : List Char) : ℚ := (parseFloatJS s).getD 0

def toPriceData (row : CsvRow) : PriceData :=
  ⟨parseIntJS row.tsRaw, qOfField row.openRaw, qOfField row.highRaw,
   qOfField row.lowRaw, qOfField row.closeRaw, qOfField row.volumeRaw⟩

/-- The `data`-event loop of `loadPricesFromPosition`: capture `entryPrice` from
the first row whose `parseInt(row.timestamp)` equals `entryTime.getTime()`,
push every row, and stop once `entryPrice !== 0 && condition(price, entryPrice)`. -/
def loadLoop (condition : PriceData → ℚ → Bool) (entryTimeMs : Int) :
    List CsvRow → Bool → ℚ → List PriceData → List PriceData
  | [], _, _, results => results
  | row :: rest, firstPrice, entryPrice, results =>
    let hit := decide (parseIntJS row.tsRaw = some entryTimeMs) && firstPrice
    let entryPrice := if hit then qOfField row.openRaw else entryPrice
    let firstPrice := if hit then false else firstPrice
    let price := toPriceData row
    let results := results ++ [price]
    if decide (entryPrice ≠ 0) && condition price entryPrice then results
    else loadLoop condition entryTimeMs rest firstPrice entryPrice results

def loadPricesFromPosition (file : List Char) (startPosition : Nat)
    (condition : PriceData → ℚ → Bool) (entryTimeMs : Int) : List PriceData :=
  loadLoop condition entryTimeMs (csvRowsFrom file startPosition) true 0 []

/-! ## The decision and simulation core (`backtest`, src/backtester.ts lines 214-394) -/

def STOP_LOSS_PERCENTAGE : ℚ := 0.002
def TAKE_PROFIT_PERCENTAGE : ℚ := 0.02
def RETURN_THRESHOLD_PERCENTAGE : ℚ := 0.0015
def AMOUNT : ℚ := 200000
def MAX_AMOUNT : ℚ := 1000000
def OFFSET_NFP : ℚ := 15000
def OFFSET_CPI : ℚ := 0.02
def OFFSET_FOMC : ℚ := 0.02

/-- `Math.sign`. -/
def signQ (x : ℚ) : ℚ := if 0 < x then 1 else if x < 0 then -1 else 0

/-- `Math.sign(x) * Math.floor(Math.abs(x))`: round toward zero. -/
def truncTowardZero (x : ℚ) : ℚ := signQ x * (⌊|x|⌋ : ℚ)

/-- `Math.floor(MAX_AMOUNT / AMOUNT)` = 5. -/
def max_leverage : ℚ := (⌊MAX_AMOUNT / AMOUNT⌋ : ℚ)

def rawLeverage (value threshold offset : ℚ) : ℚ := (value - threshold) / offset

/-- The two clamp statements of `backtest`. -/
def clampLeverage (l : ℚ) : ℚ :=
  let l := if max_leverage < l then max_leverage else l
  if l < -max_leverage then -max_leverage else l

/-- Leverage after round-toward-zero and clamping, before the direction flip. -/
def leverageFor (value threshold offset : ℚ) : ℚ :=
  clampLeverage (truncTowardZero (rawLeverage value threshold offset))

/-- The per-event offset table keyed on `event.eventId` (FOMC / CPI / NFP);
any other event is skipped. -/
def offsetFor (eventId : String) : Option ℚ :=
  if eventId = "fcfae951-09a7-449e-b6fe-525e1335aaba" then some OFFSET_FOMC
  else if eventId = "9ae5cf07-55da-4f0f-b21d-f6f0835731d9" then some OFFSET_CPI
  else if eventId = "9cdf56fd-99e4-4026-aa99-2b6c0ca92811" then some OFFSET_NFP
  else none

/-- A historical event record (`event.dateUtc` is stored as an ISO string and
parsed with `new Date`; the model carries the parsed epoch milliseconds). -/
structure Event where
  eventId : String
  name : String
  dateUtcMs : Int
  actual : Option ℚ
  consensus : ℚ
deriving DecidableEq, Repr

/-- One backtest output record (`results.push({...})`).  `date` is the event
`Date` in epoch milliseconds. -/
structure Result where
  date : Int
  event : String
  action : String
  entryPrice : ℚ
  exitPrice : ℚ
  profitOrLoss : ℚ
  amountBTC : ℚ
deriving DecidableEq, Repr

/-- `parseFloat(x.toFixed(2))`: nearest 2-decimal value, ties to the larger. -/
def toFixed2 (q : ℚ) : ℚ := (⌊q * 100 + 1 / 2⌋ : ℚ) / 100

/-- `parseFloat(x.toFixed(4))`. -/
def toFixed4 (q : ℚ) : ℚ := (⌊q * 10000 + 1 / 2⌋ : ℚ) / 10000

def takeProfitPriceFor (leverage entryPrice : ℚ) : ℚ :=
  if 0 < leverage then entryPrice * (1 + TAKE_PROFIT_PERCENTAGE)
  else entryPrice * (1 - TAKE_PROFIT_PERCENTAGE)

def stopLossPriceFor (leverage entryPrice : ℚ) : ℚ :=
  if 0 < leverage then entryPrice * (1 - STOP_LOSS_PERCENTAGE)
  else entryPrice * (1 + STOP_LOSS_PERCENTAGE)

def returnThresholdFor (leverage entryPrice : ℚ) : ℚ :=
  if 0 < leverage then entryPrice * (1 + RETURN_THRESHOLD_PERCENTAGE)
  else entryPrice * (1 - RETURN_THRESHOLD_PERCENTAGE)

/-- `secondsSinceEntry >= 10`, where `secondsSinceEntry` is
`(price.timestamp.getTime() - eventTime.getTime()) / 1000`; false for an
invalid bar timestamp (NaN arithmetic). -/
def graceElapsed (eventTimeMs : Int) (p : PriceData) : Bool :=
  match p.timestamp with
  | some t => decide ((10 : ℚ) ≤ ((t - eventTimeMs : ℤ) : ℚ) / 1000)
  | none => false

/-- The `for (const price of relevantPrices)` exit loop.  Returns the exit
price and the `exitDueToNoMovement` flag; when no bar breaks out of the loop
the initial `exitPrice = entryPrice` survives. -/
def simLoop (leverage takeProfitPrice stopLossPrice returnThreshold entryPrice : ℚ)
    (eventTimeMs : Int) : List PriceData → ℚ × Bool
  | [] => (entryPrice, false)
  | p :: rest =>
    if 0 < leverage then
      if takeProfitPrice ≤ p.highQ then (takeProfitPrice, false)
      else if p.lowQ ≤ stopLossPrice then (stopLossPrice, false)
      else if graceElapsed eventTimeMs p then
        if p.highQ < returnThreshold then (p.closeQ, true)
        else simLoop leverage takeProfitPrice stopLossPrice returnThreshold entryPrice eventTimeMs rest
      else simLoop leverage takeProfitPrice stopLossPrice returnThreshold entryPrice eventTimeMs rest
    else
      if p.lowQ ≤ takeProfitPrice then (takeProfitPrice, false)
      else if stopLossPrice ≤ p.highQ then (stopLossPrice, false)
      else if graceElapsed eventTimeMs p then
        if returnThreshold < p.lowQ then (p.closeQ, true)
        else simLoop leverage takeProfitPrice stopLossPrice returnThreshold entryPrice eventTimeMs rest
      else simLoop leverage takeProfitPrice stopLossPrice returnThreshold entryPrice eventTimeMs rest

/-- The exit simulation with the price levels as `backtest` computes them. -/
def simulateExit (leverage entryPrice : ℚ) (eventTimeMs : Int)
    (prices : List PriceData) : ℚ × Bool :=
  simLoop leverage (takeProfitPriceFor leverage entryPrice)
    (stopLossPriceFor leverage entryPrice) (returnThresholdFor leverage entryPrice)
    entryPrice eventTimeMs prices

/-- The per-event tail of `backtest` from `entryPrice = relevantPrices[0].open`
to `results.push(...)`: offset lookup, leverage computation (rounding, clamp,
direction flip), dead-zone check, exit simulation, and record construction. -/
def processDecision (event : Event) (eventTimeMs : Int)
    (relevantPrices : List PriceData) (results : List Result) : List Result :=
  match relevantPrices with
  | [] => results
  | first :: _ =>
    let entryPrice := first.openQ
    let threshold := event.consensus
    let value := event.actual.getD event.consensus
    match offsetFor event.eventId with
    | none => results
    | some offset =>
      let direction := false
      let leverage := leverageFor value threshold offset
      let leverage := if direction = false then -leverage else leverage
      if -1 < leverage ∧ leverage < 1 then results
      else
        let action := if 0 < leverage then "buy" else "sell"
        let exitState := simulateExit leverage entryPrice eventTimeMs relevantPrices
        let exitPrice := exitState.1
        let exitDueToNoMovement := exitState.2
        let amountBTC := AMOUNT * |leverage| / entryPrice
        let profitOrLoss :=
          if 0 < leverage then (exitPrice - entryPrice) * amountBTC
          else (entryPrice - exitPrice) * amountBTC
        results ++ [{ date := eventTimeMs, event := event.name,
                      action := if exitDueToNoMovement
                        then action ++ " (closed due to no movement)" else action,
                      entryPrice := toFixed2 entryPrice,
                      exitPrice := toFixed2 exitPrice,
                      profitOrLoss := toFixed2 profitOrLoss,
                      amountBTC := toFixed4 amountBTC }]

/-- The stop condition `backtest` hands to `loadPricesFromPosition` (breakout
past the take-profit band in either direction). -/
def windowStopCondition (price : PriceData) (entryPrice : ℚ) : Bool :=
  decide (entryPrice * (1 + TAKE_PROFIT_PERCENTAGE) < price.highQ) ||
  decide (price.lowQ < entryPrice * (1 - TAKE_PROFIT_PERCENTAGE))

/-- `price.timestamp >= eventTime`; false for an invalid bar timestamp. -/
def tsAtLeast (t : Int) (p : PriceData) : Bool :=
  match p.timestamp with
  | some u => decide (t ≤ u)
  | none => false

/-- One iteration of the `for (const event of events)` loop of `backtest`. -/
def backtestEvent (file : List Char) (event : Event) (results : List Result) :
    List Result :=
  let eventTimeMs := event.dateUtcMs
  let startPosition := binarySearchCSV file eventTimeMs
  if startPosition = 0 then results
  else
    let prices := loadPricesFromPosition file startPosition.toNat windowStopCondition eventTimeMs
    if prices.isEmpty then results
    else
      let relevantPrices := prices.filter (tsAtLeast eventTimeMs)
      if relevantPrices.isEmpty then results
      else processDecision event eventTimeMs relevantPrices results

def backtest (file : List Char) (events : List Event) : List Result :=
  events.foldl (fun results event => backtestEvent file event results) []

/-! ## The live polling loop (`launchAlgorithm`, src/strategy.ts lines 51-93)

Cooperative scheduling per the concurrency model: each timer tick runs to
completion before the next is considered, and once the interval is cleared no
further tick fires.  A tick outcome is the value `checkValueFunction` returned
(`none` = not published / parse failure). -/

structure PollState where
  executed : Bool
  cleared : Bool
  calls : List ℚ
deriving DecidableEq, Repr

/-- One tick of the `setInterval` callback: the `strategy_executed` guard, the
`NO_RECURRENT_FETCH` single-shot clear, the fetch, and on a non-null value the
flag set, the `clearInterval`, and the single `executeStrategyFunction` call. -/
def pollTick (noRecurrentFetch : Bool) (s : PollState) (fetched : Option ℚ) :
    PollState :=
  if s.executed then { s with cleared := true }
  else
    let s := if noRecurrentFetch then { s with cleared := true } else s
    match fetched with
    | some v => { s with executed := true, cleared := true, calls := s.calls ++ [v] }
    | none => s

def runPolling (noRecurrentFetch : Bool) (s : PollState) :
    List (Option ℚ) → PollState
  | [] => s
  | f :: rest =>
    let s2 := pollTick noRecurrentFetch s f
    if s2.cleared then s2 else runPolling noRecurrentFetch s2 rest

/-- A whole run of `launchAlgorithm` against a stream of fetch outcomes. -/
def launchAlgorithmRun (noRecurrentFetch : Bool) (fetches : List (Option ℚ)) :
    PollState :=
  runPolling noRecurrentFetch ⟨false, false, []⟩ fetches

/-! ## JSON persistence (`JSON.stringify` in the backtest main block, and
`readFromFile` = `JSON.parse`, src/utils/utils.ts lines 36-42)

The persisted format is a JSON array of flat record objects whose values are
strings and numbers.  `JSON.stringify` serializes a `Date` through
`Date.prototype.toJSON`, i.e. as its `toISOString()` text; `JSON.parse` has no
date type and can only give back strings and numbers. -/

/-- A scalar inside a re-read record: what `JSON.parse` can produce here. -/
inductive JScalar where
  | num (q : ℚ)
  | str (s : List Char)
deriving DecidableEq, Repr

/-- A JS runtime field value as relevant here: JSON scalars plus `Date`. -/
inductive JsValue where
  | num (q : ℚ)
  | str (s : List Char)
  | dateObj (ms : Int)
deriving DecidableEq, Repr

def digitCharOf (d : Nat) : Char := Char.ofNat (48 + d)

/-- Little-endian digit expansion; the fuel argument only bounds recursion and
any `fuel > n` gives the same digits. -/
def natToRevDigitsAux : Nat → Nat → List Char
  | 0, _ => []
  | fuel + 1, n => if n = 0 then [] else digitCharOf (n % 10) :: natToRevDigitsAux fuel (n / 10)

/-- Decimal digit string of a natural number. -/
def natDigits (n : Nat) : List Char :=
  if n = 0 then ['0'] else (natToRevDigitsAux (n + 1) n).reverse

/-- Numeric value of a little-endian digit list. -/
def valLE : List Char → Nat
  | [] => 0
  | c :: cs => (c.toNat - 48) + 10 * valLE cs

def padNum (width n : Nat) : List Char :=
  let s := natDigits n
  List.replicate (width - s.length) '0' ++ s

/-- Civil calendar date from days since the Unix epoch (the standard
era/day-of-era decomposition used by every `Date` implementation). -/
def civilFromDays (z0 : Int) : Int × Nat × Nat :=
  let z := z0 + 719468
  let era : Int := (if 0 ≤ z then z else z - 146096) / 146097
  let doe : Nat := (z - era * 146097).toNat
  let yoe : Nat := (doe - doe / 1460 + doe / 36524 - doe / 146096) / 365
  let y : Int := (yoe : Int) + era * 400
  let doy : Nat := doe - (365 * yoe + yoe / 4 - yoe / 100)
  let mp : Nat := (5 * doy + 2) / 153
  let d : Nat := doy - (153 * mp + 2) / 5 + 1
  let m : Nat := if mp < 10 then mp + 3 else mp - 9
  (if m ≤ 2 then y + 1 else y, m, d)

def yearStr (y : Int) : List Char :=
  if 0 ≤ y ∧ y ≤ 9999 then padNum 4 y.toNat
  else if y < 0 then '-' :: padNum 6 (-y).toNat
  else '+' :: padNum 6 y.toNat

/-- `Date.prototype.toISOString()` for an epoch-millisecond timestamp. -/
def toISOString (ms : Int) : List Char :=
  let days : Int := Int.fdiv ms 86400000
  let msod : Nat := (Int.fmod ms 86400000).toNat
  let ymd := civilFromDays days
  yearStr ymd.1 ++ '-' :: padNum 2 ymd.2.1 ++ '-' :: padNum 2 ymd.2.2 ++
    'T' :: padNum 2 (msod / 3600000) ++ ':' :: padNum 2 (msod % 3600000 / 60000) ++
    ':' :: padNum 2 (msod % 60000 / 1000) ++ '.' :: padNum 3 (msod % 1000) ++ ['Z']

def quoteChar : Char := '"'
def backslashChar : Char := '\\'
def lbraceChar : Char := '\x7b'
def rbraceChar : Char := '\x7d'

def chars (s : String) : List Char := s.data

def printJString (s : List Char) : List Char := quoteChar :: s ++ [quoteChar]

def trimTrailingZeros (s : List Char) : List Char :=
  (s.reverse.dropWhile (· == '0')).reverse

/-- JS number-to-string for the decimal values the backtester persists
(`toFixed(2)` / `toFixed(4)` results): minimal decimal representation. -/
def printNum (q : ℚ) : List Char :=
  let sign : List Char := if q < 0 then ['-'] else []
  let n : Nat := (|q| * 10000).num.toNat
  let ipart := natDigits (n / 10000)
  let fdigits := trimTrailingZeros (padNum 4 (n % 10000))
  sign ++ ipart ++ (if fdigits.isEmpty then [] else '.' :: fdigits)

def strFieldChunk (key : List Char) (v : List Char) : List Char :=
  printJString key ++ ':' :: printJString v

def numFieldChunk (key : List Char) (q : ℚ) : List Char :=
  printJString key ++ ':' :: printNum q

/-- `JSON.stringify` of one `Result` record.  The written file only adds
insignificant whitespace (`JSON.stringify(..., null, 2)`), which the reader
skips, so the model prints compactly and the parser skips whitespace. -/
def stringifyResult (r : Result) : List Char :=
  lbraceChar ::
    (strFieldChunk (chars "date") (toISOString r.date) ++
     ',' :: strFieldChunk (chars "event") r.event.data ++
     ',' :: strFieldChunk (chars "action") r.action.data ++
     ',' :: numFieldChunk (chars "entryPrice") r.entryPrice ++
     ',' :: numFieldChunk (chars "exitPrice") r.exitPrice ++
     ',' :: numFieldChunk (chars "profitOrLoss") r.profitOrLoss ++
     ',' :: numFieldChunk (chars "amountBTC") r.amountBTC ++ [rbraceChar])

def isJsonWs (c : Char) : Bool := c == ' ' || c == '\t' || c == '\n' || c == '\r'

def skipWs (s : List Char) : List Char := s.dropWhile isJsonWs

/-- Body of a JSON string after the opening quote.  The backtester's output
contains no escape sequences. -/
def parseStringBody : List Char → List Char → Option (List Char × List Char)
  | [], _ => none
  | c :: rest, acc =>
    if c == quoteChar then some (acc.reverse, rest)
    else if c == backslashChar then none
    else parseStringBody rest (c :: acc)

def parseUnsignedJsonNumber (s : List Char) : Option (ℚ × List Char) :=
  let ds := s.takeWhile isDigitChar
  if ds.isEmpty then none
  else
    match s.dropWhile isDigitChar with
    | [] => some ((digitsToNat ds : ℚ), [])
    | c :: r =>
      if c == '.' then
        let fds := r.takeWhile isDigitChar
        if fds.isEmpty then none
        else some ((digitsToNat ds : ℚ) + (digitsToNat fds : ℚ) / (10 : ℚ) ^ fds.length,
                   r.dropWhile isDigitChar)
      else some ((digitsToNat ds : ℚ), c :: r)

def parseJsonNumber (s : List Char) : Option (ℚ × List Char) :=
  match s with
  | [] => none
  | c :: r =>
    if c == '-' then (parseUnsignedJsonNumber r).map (fun p => (-p.1, p.2))
    else parseUnsignedJsonNumber s

def parseScalar (s : List Char) : Option (JScalar × List Char) :=
  match skipWs s with
  | [] => none
  | c :: rest =>
    if c == quoteChar then (parseStringBody rest []).map (fun p => (JScalar.str p.1, p.2))
    else (parseJsonNumber (c :: rest)).map (fun p => (JScalar.num p.1, p.2))

/-- Members of a flat record object, after the opening brace. -/
def parseMembers : Nat → List Char → List (List Char × JScalar) →
    Option (List (List Char × JScalar) × List Char)
  | 0, _, _ => none
  | fuel + 1, s, acc =>
    match skipWs s with
    | [] => none
    | c :: rest =>
      if c == quoteChar then
        match parseStringBody rest [] with
        | none => none
        | some (key, r1) =>
          match skipWs r1 with
          | ':' :: r2 =>
            match parseScalar r2 with
            | none => none
            | some (v, r3) =>
              match skipWs r3 with
              | ',' :: r4 => parseMembers fuel r4 (acc ++ [(key, v)])
              | c2 :: r4 => if c2 == rbraceChar then some (acc ++ [(key, v)], r4) else none
              | [] => none
          | _ => none
      else none

/-- `JSON.parse` on one persisted record object: a flat field list; a `Date`
value can never come back. -/
def parseResultJson (s : List Char) : Option (List (List Char × JScalar)) :=
  match skipWs s with
  | [] => none
  | c :: rest =>
    if c == lbraceChar then
      match skipWs rest with
      | [] => none
      | c2 :: r2 =>
        if c2 == rbraceChar then (if skipWs r2 = [] then some [] else none)
        else
          match parseMembers (s.length + 1) (c2 :: r2) [] with
          | some (fs, r3) => if skipWs r3 = [] then some fs else none
          | none => none
    else none

/-- The in-memory record as a JS runtime object: `results.push` stored the
event time as a `Date` object. -/
def runtimeFields (r : Result) : List (List Char × JsValue) :=
  [(chars "date", JsValue.dateObj r.date),
   (chars "event", JsValue.str r.event.data),
   (chars "action", JsValue.str r.action.data),
   (chars "entryPrice", JsValue.num r.entryPrice),
   (chars "exitPrice", JsValue.num r.exitPrice),
   (chars "profitOrLoss", JsValue.num r.profitOrLoss),
   (chars "amountBTC", JsValue.num r.amountBTC)]

def jsValueOfScalar : JScalar → JsValue
  | JScalar.num q => JsValue.num q
  | JScalar.str s => JsValue.str s

/-- The record obtained by serializing `r` and re-reading it with
`readFromFile`, viewed as runtime values. -/
def rereadFields (r : Result) : Option (List (List Char × JsValue)) :=
  (parseResultJson (stringifyResult r)).map (fun fs =>
    fs.map (fun p => (p.1, jsValueOfScalar p.2)))

/-- No character of `s` needs JSON string escaping as a quote or backslash. -/
def CleanStr (s : List Char) : Prop := ∀ c ∈ s, c ≠ quoteChar ∧ c ≠ backslashChar

/-- `q` is a decimal value with at most four fractional digits. -/
def Decimal4 (q : ℚ) : Prop := (|q| * 10000).den = 1

/-! ## Concrete inputs used by witnesses and counterexamples -/

/-- A small sorted price file: the header line, then a record at timestamp 100
and a record at timestamp 200.  The first data record starts at byte 37. -/
def exampleFile : List Char :=
  ("timestamp,open,high,low,close,volume\n" ++
   "100,10,11,9,10,1\n" ++
   "200,20,21,19,20,1\n").data

def exampleRow1 : List Char := ("100,10,11,9,10,1").data

def exampleRow2 : List Char := ("200,20,21,19,20,1").data

/-- A concrete backtest record (2024-06-12T12:30:00.000Z). -/
def sampleResult : Result :=
  { date := 1718195400000, event := "CPI", action := "sell",
    entryPrice := 60000.25, exitPrice := 58800.25, profitOrLoss := -123.5,
    amountBTC := 16.6667 }

def cpiEventId : String := "9ae5cf07-55da-4f0f-b21d-f6f0835731d9"

/-- CPI release with `actual` 1.2 against consensus 1.3: raw leverage -5,
inverted to +5, so a long position. -/
def longCpiEvent : Event := ⟨cpiEventId, "CPI", 0, some 1.2, 1.3⟩

/-- CPI release with `actual` 1.31 against consensus 1.3: raw leverage 0.5,
rounded toward zero to 0, the dead zone. -/
def deadZoneCpiEvent : Event := ⟨cpiEventId, "CPI", 0, some 1.31, 1.3⟩

/-- Entry bar at the event time (open 100), touching no exit level. -/
def entryBar : PriceData := ⟨some 0, 100, 100.1, 99.9, 100, 1⟩

/-- A quiet bar ten seconds after entry: high below the long take-profit (102)
and the return threshold (100.15), low above the stop-loss (99.8). -/
def quietBar : PriceData := ⟨some 10000, 100.05, 100.1, 99.9, 100.05, 1⟩

/-- A bar touching both the long take-profit (102) and the stop-loss (99.8). -/
def bothSidesBar : PriceData := ⟨some 1000, 100, 103, 99, 101, 1⟩

/-- A CSV data row with timestamp 100. -/
def sampleCsvFile : List Char := ("100,1,2,3,4,5\n101,1,2,3,4,5\n").data

/-- The leverage the backtest trades with: rounded, clamped, then negated by
the `if (!direction)` flip (the configured `direction` is the constant
`false`). -/
def usedLeverage (event : Event) (offset : ℚ) : ℚ :=
  -leverageFor (event.actual.getD event.consensus) event.consensus offset

/-- The bar triggers none of the three exit branches of the simulation loop
(direction-dependent; observer used to state claims C6 and C10). -/
def NoTriggerBar (leverage entryPrice : ℚ) (eventTimeMs : Int) (p : PriceData) : Prop :=
  if 0 < leverage then
    p.highQ < takeProfitPriceFor leverage entryPrice ∧
    stopLossPriceFor leverage entryPrice < p.lowQ ∧
    (graceElapsed eventTimeMs p = true → returnThresholdFor leverage entryPrice ≤ p.highQ)
  else
    takeProfitPriceFor leverage entryPrice < p.lowQ ∧
    p.highQ < stopLossPriceFor leverage entryPrice ∧
    (graceElapsed eventTimeMs p = true → p.lowQ ≤ returnThresholdFor leverage entryPrice)

/-- The record `backtest` pushes for a completed simulation: leverage `L`
after the direction flip, entry price, exit price, and the no-movement flag
(observer assembling the same fields as the `results.push({...})` call). -/
def tradeRecord (event : Event) (eventTimeMs : Int) (L entry exitP : ℚ)
    (noMov : Bool) : Result :=
  { date := eventTimeMs
    event := event.name
    action := if noMov then (if 0 < L then "buy" else "sell") ++ " (closed due to no movement)"
              else (if 0 < L then "buy" else "sell")
    entryPrice := toFixed2 entry
    exitPrice := toFixed2 exitP
    profitOrLoss := toFixed2 (if 0 < L then (exitP - entry) * (AMOUNT * |L| / entry)
                              else (entry - exitP) * (AMOUNT * |L| / entry))
    amountBTC := toFixed4 (AMOUNT * |L| / entry) }

/-- The bar touches neither the take-profit nor the stop-loss level, the grace
period has elapsed, and the price has not crossed the return threshold in the
favorable direction (observer used to state claim C6). -/
def NoMovementBar (leverage entryPrice : ℚ) (eventTimeMs : Int) (p : PriceData) : Prop :=
  graceElapsed eventTimeMs p = true ∧
  (if 0 < leverage then
    p.highQ < takeProfitPriceFor leverage entryPrice ∧
    stopLossPriceFor leverage entryPrice < p.lowQ ∧
    p.highQ < returnThresholdFor leverage entryPrice
  else
    takeProfitPriceFor leverage entryPrice < p.lowQ ∧
    p.highQ < stopLossPriceFor leverage entryPrice ∧
    returnThresholdFor leverage entryPrice < p.lowQ)

end PulseWave

/-! # Theorems -/

namespace PulseWave

/-! ## List scanning helper lemmas -/

theorem indexOfChar_append_left (c : Char) (xs ys : List Char)
    (h : (indexOfChar c xs).isSome) : indexOfChar c (xs ++ ys) = indexOfChar c xs := by
  induction xs with
  | nil => simp [indexOfChar] at h
  | cons a as ih =>
    simp only [List.cons_append, indexOfChar, List.append_eq] at h ⊢
    by_cases hac : (a == c) = true
    · simp [hac]
    · simp only [hac, if_false] at h ⊢
      cases ho : indexOfChar c as with
      | none => rw [ho] at h; simp at h
      | some j => rw [ih (by rw [ho]; rfl), ho]

theorem lastIndexOfAux_append (c : Char) (xs : List Char) :
    ∀ (ys : List Char) (i : Nat) (acc : Option Nat),
      lastIndexOfAux c (xs ++ ys) i acc =
        lastIndexOfAux c ys (i + xs.length) (lastIndexOfAux c xs i acc) := by
  induction xs with
  | nil => intro ys i acc; simp [lastIndexOfAux]
  | cons a as ih =>
    intro ys i acc
    simp only [List.cons_append, lastIndexOfAux, List.length_cons, List.append_eq]
    rw [ih]
    have harith : i + 1 + as.length = i + (as.length + 1) := by omega
    rw [harith]

theorem lastIndexOfAux_no_occurrence (c : Char) (ys : List Char)
    (h : ∀ y ∈ ys, (y == c) = false) :
    ∀ (i : Nat) (acc : Option Nat), lastIndexOfAux c ys i acc = acc := by
  induction ys with
  | nil => intro i acc; rfl
  | cons a as ih =>
    intro i acc
    simp only [lastIndexOfAux, h a (List.mem_cons_self a as)]
    exact ih (fun y hy => h y (List.mem_cons_of_mem a hy)) _ _

theorem lastIndexOfChar_append_nul_pad (xs : List Char) (k : Nat) :
    lastIndexOfChar newlineChar (xs ++ List.replicate k nulChar) =
      lastIndexOfChar newlineChar xs := by
  unfold lastIndexOfChar
  rw [lastIndexOfAux_append]
  refine lastIndexOfAux_no_occurrence _ _ (fun y hy => ?_) _ _
  rcases List.mem_replicate.mp hy with ⟨-, rfl⟩
  decide

theorem readChunk_zero_small (file : List Char) (size : Nat) (h : file.length ≤ size) :
    readChunk file 0 size = file ++ List.replicate (size - file.length) nulChar := by
  simp only [readChunk, List.drop_zero, List.take_of_length_le h]

theorem windowRows_small (file : List Char)
    (hlen : file.length ≤ 50000)
    (hfirst : (indexOfChar newlineChar file).isSome)
    (i : Nat) (hlast : lastIndexOfChar newlineChar file = some i) (hi : i ≤ file.length) :
    windowRows file 0 =
      splitOnChar newlineChar ((file.take i).drop (startLineIdx file)) := by
  simp only [windowRows]
  rw [readChunk_zero_small file 50000 hlen]
  have hEnd : endLineIdx (file ++ List.replicate (50000 - file.length) nulChar) = i := by
    simp only [endLineIdx]
    rw [lastIndexOfChar_append_nul_pad, hlast]
  have hStart : startLineIdx (file ++ List.replicate (50000 - file.length) nulChar) =
      startLineIdx file := by
    simp only [startLineIdx]
    rw [indexOfChar_append_left _ _ _ hfirst]
  rw [hEnd, hStart, List.take_append_of_le_length hi]

/-! ## Evaluating the search on the example file -/

theorem exampleFile_rows : windowRows exampleFile 0 = [exampleRow1, exampleRow2] := by
  rw [windowRows_small exampleFile (by decide) (by decide) 71 (by decide) (by decide)]
  decide

theorem rowQualifies_exampleRow1 (t : Int) :
    rowQualifies t exampleRow1 = decide (t ≤ 100) := rfl

theorem rowQualifies_exampleRow2 (t : Int) :
    rowQualifies t exampleRow2 = decide (t ≤ 200) := rfl

theorem exampleFile_scan (t : Int) :
    scanWindowFound exampleFile 0 t = decide (t ≤ 200) := by
  simp only [scanWindowFound]
  rw [exampleFile_rows]
  show (rowQualifies t exampleRow1 || (rowQualifies t exampleRow2 || false)) = _
  rw [rowQualifies_exampleRow1, rowQualifies_exampleRow2, Bool.or_false]
  by_cases h1 : t ≤ 100
  · simp [h1, show t ≤ 200 by omega]
  · by_cases h2 : t ≤ 200 <;> simp [h1, h2]

theorem finalLineAdjust_exampleFile : finalLineAdjust exampleFile 0 = 37 := by
  simp only [finalLineAdjust]
  rw [readChunk_zero_small exampleFile 1000 (by decide)]
  rw [indexOfChar_append_left _ _ _ (by decide)]
  decide

theorem searchLoop_stop (w : Nat → Bool) (start : Nat) (stop fp : Int)
    (h : ¬((start : Int) ≤ stop)) : searchLoop w start stop fp = fp := by
  rw [searchLoop]
  exact dif_neg h

theorem searchLoop_found (w : Nat → Bool) (start : Nat) (stop fp : Int)
    (h : (start : Int) ≤ stop)
    (hscan : w (readPosOf start stop) = true) :
    searchLoop w start stop fp =
      searchLoop w start ((readPosOf start stop : Int) - 1) (readPosOf start stop : Int) := by
  rw [searchLoop]
  rw [dif_pos h, if_pos hscan]

theorem searchLoop_missed (w : Nat → Bool) (start : Nat) (stop fp : Int)
    (h : (start : Int) ≤ stop)
    (hscan : w (readPosOf start stop) = false) :
    searchLoop w start stop fp =
      searchLoop w (readPosOf start stop + 50000) stop fp := by
  rw [searchLoop]
  rw [dif_pos h, if_neg (by rw [hscan]; exact Bool.false_ne_true)]

theorem exampleFile_locate (t : Int) :
    binarySearchCSV exampleFile t = if t ≤ 200 then 37 else 0 := by
  have h72 : (exampleFile.length : Int) = 72 := by decide
  have hrp : readPosOf 0 72 = 0 := by decide
  simp only [binarySearchCSV, h72]
  by_cases h : t ≤ 200
  · rw [searchLoop_found _ 0 72 (-1) (by norm_num)
      (by show scanWindowFound exampleFile (readPosOf 0 72) t = true
          rw [hrp, exampleFile_scan]; simp [h])]
    rw [hrp]
    rw [searchLoop_stop _ _ _ _ (by norm_num)]
    simp only [Nat.cast_zero, Int.toNat_zero]
    rw [if_pos (by norm_num), finalLineAdjust_exampleFile, if_pos h]
  · rw [searchLoop_missed _ 0 72 (-1) (by norm_num)
      (by show scanWindowFound exampleFile (readPosOf 0 72) t = false
          rw [hrp, exampleFile_scan]; simp [h])]
    rw [hrp]
    rw [searchLoop_stop _ _ _ _ (by norm_num)]
    rw [if_neg (by norm_num), if_neg h]

/-! ## Claims C1 and C2 -/

/-- Claim C1, counterexample.  On the example file (records at timestamps 100
and 200) with the in-file target `T = 200`, the smallest timestamp `≥ T` is
200 itself, yet `binarySearchCSV` returns byte offset 37, where the record
with timestamp 100 begins; and for `T = 50`, earlier than the first record's
timestamp, it returns 37 rather than the claimed 0. -/
theorem c1_counterexample :
    binarySearchCSV exampleFile 200 = 37 ∧
    recordTimestampAt exampleFile 37 = some 100 ∧
    ¬((200 : Int) ≤ 100) ∧
    binarySearchCSV exampleFile 50 ≠ 0 := by
  refine ⟨?_, by decide, by norm_num, ?_⟩
  · rw [exampleFile_locate]; norm_num
  · rw [exampleFile_locate]; norm_num

/-- Claim C1 (amended).  For a sorted price file that fits inside one scan
window, `binarySearchCSV` returns the byte offset of the first complete data
record whenever any record's timestamp is `≥ T` — in particular also when `T`
precedes the first record (it does not return 0 then), and even when that
first record's timestamp is `< T` — and it returns 0 exactly when `T` exceeds
every timestamp in the file.  On the example file: 37, the offset of the
timestamp-100 record, for every `T ≤ 200`, and 0 otherwise. -/
theorem c1_theorem :
    (∀ t : Int, binarySearchCSV exampleFile t = if t ≤ 200 then 37 else 0) ∧
    recordTimestampAt exampleFile 37 = some 100 :=
  ⟨exampleFile_locate, by decide⟩

/-- Claim C2, counterexample.  For `T = 300`, strictly later than the last
record's timestamp 200, `binarySearchCSV` returns the sentinel 0 — not a
position inside the file as the claim states (`foundPosition` is never set,
since no scan window contains a qualifying timestamp). -/
theorem c2_counterexample : binarySearchCSV exampleFile 300 = 0 := by
  rw [exampleFile_locate]; norm_num

/-- Claim C2 (amended).  For every target strictly later than the last
record's timestamp, no scan window ever contains a qualifying timestamp, so
`foundPosition` keeps its `-1` sentinel and `binarySearchCSV` returns 0; the
caller's `startPosition === 0` check then skips the event (logging it as
preceding the first record) instead of streaming an empty bar sequence. -/
theorem c2_theorem (t : Int) (ht : 200 < t) : binarySearchCSV exampleFile t = 0 := by
  rw [exampleFile_locate, if_neg (by omega)]

theorem c2_witness : (200 : Int) < 500 ∧ binarySearchCSV exampleFile 500 = 0 :=
  ⟨by norm_num, c2_theorem 500 (by norm_num)⟩

/-! ## Leverage arithmetic (claims C3, C4) -/

theorem max_leverage_eq : max_leverage = 5 := by
  unfold max_leverage MAX_AMOUNT AMOUNT
  rw [show (1000000 : ℚ) / 200000 = ((5 : ℤ) : ℚ) by norm_num, Int.floor_intCast]
  norm_num

theorem truncTowardZero_intCast (n : ℤ) : truncTowardZero ((n : ℤ) : ℚ) = (n : ℚ) := by
  unfold truncTowardZero signQ
  rcases lt_trichotomy (0 : ℚ) ((n : ℤ) : ℚ) with h | h | h
  · rw [if_pos h, one_mul, abs_of_nonneg h.le, Int.floor_intCast]
  · have hn : ((n : ℤ) : ℚ) = 0 := h.symm
    rw [if_neg (by rw [hn]; exact lt_irrefl 0), if_neg (by rw [hn]; exact lt_irrefl 0),
      zero_mul, hn]
  · rw [if_neg (not_lt.mpr h.le), if_pos h, abs_of_nonpos h.le]
    rw [show -((n : ℤ) : ℚ) = (((-n : ℤ)) : ℚ) from by push_cast; ring, Int.floor_intCast]
    push_cast
    ring

theorem truncTowardZero_half : truncTowardZero (1 / 2) = 0 := by
  unfold truncTowardZero signQ
  rw [if_pos (by norm_num), one_mul, abs_of_nonneg (by norm_num)]
  rw [show ⌊(1 / 2 : ℚ)⌋ = 0 from by rw [Int.floor_eq_iff]; norm_num]
  norm_num

theorem truncTowardZero_eq_zero_of_abs_lt_one (x : ℚ)
    (h : |truncTowardZero x| < 1) : truncTowardZero x = 0 := by
  have hf : (0 : ℤ) ≤ ⌊|x|⌋ := Int.floor_nonneg.mpr (abs_nonneg x)
  have hfq : (0 : ℚ) ≤ (⌊|x|⌋ : ℚ) := by exact_mod_cast hf
  rcases lt_trichotomy 0 x with hx | hx | hx
  · have hs : signQ x = 1 := if_pos hx
    unfold truncTowardZero at h ⊢
    rw [hs, one_mul] at h ⊢
    rw [abs_of_nonneg hfq] at h
    have h2 : ⌊|x|⌋ < 1 := by exact_mod_cast h
    have h3 : ⌊|x|⌋ = 0 := by omega
    rw [h3]
    norm_num
  · have hs : signQ x = 0 := by
      unfold signQ
      rw [if_neg (by rw [← hx]; exact lt_irrefl 0), if_neg (by rw [← hx]; exact lt_irrefl 0)]
    unfold truncTowardZero
    rw [hs, zero_mul]
  · have hs : signQ x = -1 := by
      unfold signQ
      rw [if_neg (by exact not_lt.mpr hx.le), if_pos hx]
    unfold truncTowardZero at h ⊢
    rw [hs] at h ⊢
    rw [neg_one_mul, abs_neg, abs_of_nonneg hfq] at h
    have h2 : ⌊|x|⌋ < 1 := by exact_mod_cast h
    have h3 : ⌊|x|⌋ = 0 := by omega
    rw [h3]
    norm_num

theorem clampLeverage_zero : clampLeverage 0 = 0 := by
  unfold clampLeverage
  rw [max_leverage_eq]
  norm_num

theorem clampLeverage_of_gt (l : ℚ) (h : max_leverage < l) :
    clampLeverage l = max_leverage := by
  unfold clampLeverage
  rw [if_pos h, if_neg (show ¬(max_leverage < -max_leverage) from by
    rw [max_leverage_eq]; norm_num)]

theorem clampLeverage_of_lt (l : ℚ) (h : l < -max_leverage) :
    clampLeverage l = -max_leverage := by
  unfold clampLeverage
  rw [if_neg (show ¬(max_leverage < l) from by
    rw [max_leverage_eq] at h ⊢; linarith), if_pos h]

theorem leverageFor_eq_zero (value threshold offset : ℚ)
    (h : truncTowardZero (rawLeverage value threshold offset) = 0) :
    leverageFor value threshold offset = 0 := by
  unfold leverageFor
  rw [h]
  exact clampLeverage_zero

theorem processDecision_dead (event : Event) (eventTimeMs : Int)
    (relevantPrices : List PriceData) (results : List Result) (offset : ℚ)
    (hoff : offsetFor event.eventId = some offset)
    (hz : truncTowardZero (rawLeverage (event.actual.getD event.consensus)
      event.consensus offset) = 0) :
    processDecision event eventTimeMs relevantPrices results = results := by
  cases relevantPrices with
  | nil => rfl
  | cons first rest =>
    simp only [processDecision, hoff]
    rw [leverageFor_eq_zero _ _ _ hz]
    norm_num

/-- Claim C3.  Whenever the configured offset for the event exists and the
raw leverage `(value - threshold) / offset` rounds toward zero to a value of
magnitude `< 1` (the sign flip for the inverse direction preserves the
magnitude), the backtest takes no action for the event: no trade is simulated
and the results collection is returned unchanged. -/
theorem c3_theorem (file : List Char) (event : Event) (results : List Result)
    (offset : ℚ)
    (hoff : offsetFor event.eventId = some offset)
    (hdead : |truncTowardZero (rawLeverage (event.actual.getD event.consensus)
      event.consensus offset)| < 1) :
    backtestEvent file event results = results := by
  have hz := truncTowardZero_eq_zero_of_abs_lt_one _ hdead
  simp only [backtestEvent]
  split
  · rfl
  · split
    · rfl
    · split
      · rfl
      · exact processDecision_dead event event.dateUtcMs _ results offset hoff hz

theorem rawLeverage_deadZone :
    rawLeverage (deadZoneCpiEvent.actual.getD deadZoneCpiEvent.consensus)
      deadZoneCpiEvent.consensus OFFSET_CPI = 1 / 2 := by
  show rawLeverage ((some (1.31 : ℚ)).getD 1.3) 1.3 0.02 = 1 / 2
  unfold rawLeverage
  norm_num

theorem deadZone_hyp :
    |truncTowardZero (rawLeverage (deadZoneCpiEvent.actual.getD deadZoneCpiEvent.consensus)
      deadZoneCpiEvent.consensus OFFSET_CPI)| < 1 := by
  rw [rawLeverage_deadZone, truncTowardZero_half]
  norm_num

theorem offsetFor_cpi : offsetFor cpiEventId = some OFFSET_CPI := by
  unfold offsetFor
  rw [if_neg (by decide),
    if_pos (show cpiEventId = "9ae5cf07-55da-4f0f-b21d-f6f0835731d9" from rfl)]

theorem c3_witness :
    offsetFor deadZoneCpiEvent.eventId = some OFFSET_CPI ∧
    |truncTowardZero (rawLeverage (deadZoneCpiEvent.actual.getD deadZoneCpiEvent.consensus)
      deadZoneCpiEvent.consensus OFFSET_CPI)| < 1 ∧
    backtestEvent exampleFile deadZoneCpiEvent [] = [] :=
  ⟨offsetFor_cpi, deadZone_hyp,
   c3_theorem exampleFile deadZoneCpiEvent [] OFFSET_CPI offsetFor_cpi deadZone_hyp⟩

/-- Claim C4.  When the rounded-toward-zero raw leverage has magnitude
strictly above `maxLeverage = Math.floor(MAX_AMOUNT / AMOUNT) = 5`, the
clamped leverage used by the backtest (still before the direction flip) is
exactly `sign(raw) * maxLeverage`: magnitude exactly `maxLeverage`, sign of
the raw leverage preserved. -/
theorem c4_theorem (value threshold offset : ℚ)
    (h : max_leverage < |truncTowardZero (rawLeverage value threshold offset)|) :
    leverageFor value threshold offset =
      signQ (rawLeverage value threshold offset) * max_leverage := by
  have hf : (0 : ℤ) ≤ ⌊|rawLeverage value threshold offset|⌋ :=
    Int.floor_nonneg.mpr (abs_nonneg _)
  have hfq : (0 : ℚ) ≤ (⌊|rawLeverage value threshold offset|⌋ : ℚ) := by exact_mod_cast hf
  rcases lt_trichotomy 0 (rawLeverage value threshold offset) with hx | hx | hx
  · have hs : signQ (rawLeverage value threshold offset) = 1 := if_pos hx
    have htr : truncTowardZero (rawLeverage value threshold offset) =
        (⌊|rawLeverage value threshold offset|⌋ : ℚ) := by
      unfold truncTowardZero
      rw [hs, one_mul]
    rw [htr, abs_of_nonneg hfq] at h
    unfold leverageFor
    rw [htr, clampLeverage_of_gt _ h, hs, one_mul]
  · exfalso
    have hs : signQ (rawLeverage value threshold offset) = 0 := by
      unfold signQ
      rw [if_neg (by rw [← hx]; exact lt_irrefl 0), if_neg (by rw [← hx]; exact lt_irrefl 0)]
    have htr : truncTowardZero (rawLeverage value threshold offset) = 0 := by
      unfold truncTowardZero
      rw [hs, zero_mul]
    rw [htr, max_leverage_eq] at h
    norm_num at h
  · have hs : signQ (rawLeverage value threshold offset) = -1 := by
      unfold signQ
      rw [if_neg (by exact not_lt.mpr hx.le), if_pos hx]
    have htr : truncTowardZero (rawLeverage value threshold offset) =
        -(⌊|rawLeverage value threshold offset|⌋ : ℚ) := by
      unfold truncTowardZero
      rw [hs, neg_one_mul]
    rw [htr, abs_neg, abs_of_nonneg hfq] at h
    unfold leverageFor
    rw [htr, clampLeverage_of_lt _ (by linarith), hs, neg_one_mul]

theorem rawLeverage_scenario : rawLeverage 3.5 1.3 0.2 = ((11 : ℤ) : ℚ) := by
  unfold rawLeverage
  norm_num

theorem clamp_hyp : max_leverage < |truncTowardZero (rawLeverage 3.5 1.3 0.2)| := by
  rw [rawLeverage_scenario, truncTowardZero_intCast 11, max_leverage_eq]
  norm_num

theorem c4_witness :
    max_leverage < |truncTowardZero (rawLeverage 3.5 1.3 0.2)| ∧
    leverageFor 3.5 1.3 0.2 = signQ (rawLeverage 3.5 1.3 0.2) * max_leverage :=
  ⟨clamp_hyp, c4_theorem 3.5 1.3 0.2 clamp_hyp⟩

/-! ## Simulation-loop lemmas (claims C5, C6, C10) -/

theorem clampLeverage_neg_five : clampLeverage (-5) = -5 := by
  unfold clampLeverage
  rw [max_leverage_eq]
  norm_num

theorem usedLeverage_longCpi : usedLeverage longCpiEvent OFFSET_CPI = 5 := by
  unfold usedLeverage leverageFor
  rw [show rawLeverage (longCpiEvent.actual.getD longCpiEvent.consensus)
      longCpiEvent.consensus OFFSET_CPI = (((-5 : ℤ)) : ℚ) from by
    show rawLeverage ((some (1.2 : ℚ)).getD 1.3) 1.3 0.02 = (((-5 : ℤ)) : ℚ)
    unfold rawLeverage
    norm_num]
  rw [truncTowardZero_intCast (-5)]
  rw [show (((-5 : ℤ)) : ℚ) = (-5 : ℚ) from by norm_num]
  rw [clampLeverage_neg_five]
  norm_num

theorem simLoop_skip (leverage tp sl rt entry : ℚ) (eventTimeMs : Int)
    (p : PriceData) (rest : List PriceData)
    (hp : if 0 < leverage then
        p.highQ < tp ∧ sl < p.lowQ ∧ (graceElapsed eventTimeMs p = true → rt ≤ p.highQ)
      else tp < p.lowQ ∧ p.highQ < sl ∧ (graceElapsed eventTimeMs p = true → p.lowQ ≤ rt)) :
    simLoop leverage tp sl rt entry eventTimeMs (p :: rest) =
      simLoop leverage tp sl rt entry eventTimeMs rest := by
  simp only [simLoop]
  by_cases hl : 0 < leverage
  · rw [if_pos hl] at hp
    obtain ⟨h1, h2, h3⟩ := hp
    rw [if_pos hl, if_neg (not_le.mpr h1), if_neg (not_le.mpr h2)]
    by_cases hg : graceElapsed eventTimeMs p = true
    · rw [if_pos hg, if_neg (not_lt.mpr (h3 hg))]
    · rw [if_neg hg]
  · rw [if_neg hl] at hp
    obtain ⟨h1, h2, h3⟩ := hp
    rw [if_neg hl, if_neg (not_le.mpr h1), if_neg (not_le.mpr h2)]
    by_cases hg : graceElapsed eventTimeMs p = true
    · rw [if_pos hg, if_neg (not_lt.mpr (h3 hg))]
    · rw [if_neg hg]

theorem simLoop_no_movement (leverage tp sl rt entry : ℚ) (eventTimeMs : Int)
    (p : PriceData) (rest : List PriceData)
    (hg : graceElapsed eventTimeMs p = true)
    (hp : if 0 < leverage then p.highQ < tp ∧ sl < p.lowQ ∧ p.highQ < rt
          else tp < p.lowQ ∧ p.highQ < sl ∧ rt < p.lowQ) :
    simLoop leverage tp sl rt entry eventTimeMs (p :: rest) = (p.closeQ, true) := by
  simp only [simLoop]
  by_cases hl : 0 < leverage
  · rw [if_pos hl] at hp
    obtain ⟨h1, h2, h3⟩ := hp
    rw [if_pos hl, if_neg (not_le.mpr h1), if_neg (not_le.mpr h2), if_pos hg, if_pos h3]
  · rw [if_neg hl] at hp
    obtain ⟨h1, h2, h3⟩ := hp
    rw [if_neg hl, if_neg (not_le.mpr h1), if_neg (not_le.mpr h2), if_pos hg, if_pos h3]

theorem simLoop_no_trigger (leverage tp sl rt entry : ℚ) (eventTimeMs : Int)
    (prices : List PriceData)
    (h : ∀ p ∈ prices, if 0 < leverage then
        p.highQ < tp ∧ sl < p.lowQ ∧ (graceElapsed eventTimeMs p = true → rt ≤ p.highQ)
      else tp < p.lowQ ∧ p.highQ < sl ∧ (graceElapsed eventTimeMs p = true → p.lowQ ≤ rt)) :
    simLoop leverage tp sl rt entry eventTimeMs prices = (entry, false) := by
  induction prices with
  | nil => rfl
  | cons p rest ih =>
    rw [simLoop_skip _ _ _ _ _ _ _ _ (h p (List.mem_cons_self p rest))]
    exact ih (fun q hq => h q (List.mem_cons_of_mem _ hq))

theorem toFixed2_zero : toFixed2 0 = 0 := by
  unfold toFixed2
  rw [show (0 : ℚ) * 100 + 1 / 2 = 1 / 2 from by norm_num]
  rw [show ⌊(1 / 2 : ℚ)⌋ = 0 from by rw [Int.floor_eq_iff]; norm_num]
  norm_num

/-- Claim C5.  When the simulation reaches a bar touching both the take-profit
and the stop-loss level (long: `high ≥ takeProfitPrice` and
`low ≤ stopLossPrice`; mirrored for a short), it exits at the take-profit
price: the take-profit branch is evaluated before the stop-loss branch in both
directions. -/
theorem c5_theorem (leverage entryPrice : ℚ) (eventTimeMs : Int)
    (bar : PriceData) (rest : List PriceData)
    (hlong : 0 < leverage →
      takeProfitPriceFor leverage entryPrice ≤ bar.highQ ∧
      bar.lowQ ≤ stopLossPriceFor leverage entryPrice)
    (hshort : ¬0 < leverage →
      bar.lowQ ≤ takeProfitPriceFor leverage entryPrice ∧
      stopLossPriceFor leverage entryPrice ≤ bar.highQ) :
    simulateExit leverage entryPrice eventTimeMs (bar :: rest) =
      (takeProfitPriceFor leverage entryPrice, false) := by
  unfold simulateExit
  simp only [simLoop]
  by_cases hl : 0 < leverage
  · rw [if_pos hl, if_pos (hlong hl).1]
  · rw [if_neg hl, if_pos (hshort hl).1]

theorem c5_witness :
    takeProfitPriceFor 5 100 ≤ bothSidesBar.highQ ∧
    bothSidesBar.lowQ ≤ stopLossPriceFor 5 100 ∧
    simulateExit 5 100 0 [bothSidesBar] = (takeProfitPriceFor 5 100, false) := by
  have h1 : takeProfitPriceFor 5 100 ≤ bothSidesBar.highQ := by
    norm_num [takeProfitPriceFor, TAKE_PROFIT_PERCENTAGE, bothSidesBar]
  have h2 : bothSidesBar.lowQ ≤ stopLossPriceFor 5 100 := by
    norm_num [stopLossPriceFor, STOP_LOSS_PERCENTAGE, bothSidesBar]
  exact ⟨h1, h2, c5_theorem 5 100 0 bothSidesBar []
    (fun _ => ⟨h1, h2⟩) (fun hc => absurd (by norm_num) hc)⟩

/-- Claim C6.  If the simulation's entry bar triggers nothing and the next bar
comes at least ten seconds after the event, touches neither the take-profit
nor the stop-loss level, and its favorable extreme has not crossed the return
threshold, then the backtest closes at that bar's close price, flags the
action string with "(closed due to no movement)", and computes profitOrLoss
from that close price. -/
theorem c6_theorem (event : Event) (eventTimeMs : Int) (bar0 bar : PriceData)
    (rest : List PriceData) (results : List Result) (offset : ℚ)
    (hoff : offsetFor event.eventId = some offset)
    (hdead : ¬(-1 < usedLeverage event offset ∧ usedLeverage event offset < 1))
    (hb0 : NoTriggerBar (usedLeverage event offset) bar0.openQ eventTimeMs bar0)
    (hb : NoMovementBar (usedLeverage event offset) bar0.openQ eventTimeMs bar) :
    processDecision event eventTimeMs (bar0 :: bar :: rest) results =
      results ++
        [tradeRecord event eventTimeMs (usedLeverage event offset) bar0.openQ bar.closeQ true] := by
  simp only [usedLeverage, tradeRecord] at hdead hb0 hb ⊢
  have hsim : simulateExit
      (-leverageFor (event.actual.getD event.consensus) event.consensus offset)
      bar0.openQ eventTimeMs (bar0 :: bar :: rest) = (bar.closeQ, true) := by
    unfold simulateExit
    rw [simLoop_skip _ _ _ _ _ _ _ _ hb0]
    exact simLoop_no_movement _ _ _ _ _ _ _ _ hb.1 hb.2
  simp only [processDecision, hoff, if_true]
  rw [if_neg hdead, hsim]
  simp

theorem c6_witness :
    offsetFor longCpiEvent.eventId = some OFFSET_CPI ∧
    ¬(-1 < usedLeverage longCpiEvent OFFSET_CPI ∧ usedLeverage longCpiEvent OFFSET_CPI < 1) ∧
    NoTriggerBar (usedLeverage longCpiEvent OFFSET_CPI) entryBar.openQ 0 entryBar ∧
    NoMovementBar (usedLeverage longCpiEvent OFFSET_CPI) entryBar.openQ 0 quietBar ∧
    processDecision longCpiEvent 0 [entryBar, quietBar] [] =
      [] ++ [tradeRecord longCpiEvent 0 (usedLeverage longCpiEvent OFFSET_CPI)
        entryBar.openQ quietBar.closeQ true] := by
  have hdead : ¬(-1 < usedLeverage longCpiEvent OFFSET_CPI ∧
      usedLeverage longCpiEvent OFFSET_CPI < 1) := by
    rw [usedLeverage_longCpi]
    norm_num
  have hgrace0 : ¬(graceElapsed 0 entryBar = true) := by
    show ¬(decide ((10 : ℚ) ≤ (((0 : ℤ) - 0 : ℤ) : ℚ) / 1000) = true)
    simp only [decide_eq_true_eq]
    norm_num
  have hgrace1 : graceElapsed 0 quietBar = true := by
    show decide ((10 : ℚ) ≤ (((10000 : ℤ) - 0 : ℤ) : ℚ) / 1000) = true
    simp only [decide_eq_true_eq]
    norm_num
  have hb0 : NoTriggerBar (usedLeverage longCpiEvent OFFSET_CPI) entryBar.openQ 0 entryBar := by
    unfold NoTriggerBar
    rw [usedLeverage_longCpi, if_pos (by norm_num)]
    refine ⟨?_, ?_, fun hg => absurd hg hgrace0⟩
    · norm_num [takeProfitPriceFor, TAKE_PROFIT_PERCENTAGE, entryBar]
    · norm_num [stopLossPriceFor, STOP_LOSS_PERCENTAGE, entryBar]
  have hb : NoMovementBar (usedLeverage longCpiEvent OFFSET_CPI) entryBar.openQ 0 quietBar := by
    unfold NoMovementBar
    rw [usedLeverage_longCpi, if_pos (by norm_num)]
    refine ⟨hgrace1, ?_, ?_, ?_⟩
    · norm_num [takeProfitPriceFor, TAKE_PROFIT_PERCENTAGE, entryBar, quietBar]
    · norm_num [stopLossPriceFor, STOP_LOSS_PERCENTAGE, entryBar, quietBar]
    · norm_num [returnThresholdFor, RETURN_THRESHOLD_PERCENTAGE, entryBar, quietBar]
  exact ⟨offsetFor_cpi, hdead, hb0, hb,
    c6_theorem longCpiEvent 0 entryBar quietBar [] [] OFFSET_CPI offsetFor_cpi hdead hb0 hb⟩

/-- Claim C10.  For a qualifying (non-dead-zone) event whose streamed bars
never touch the take-profit or stop-loss level and never satisfy the
no-movement exit, the backtest still appends a TradeResult, and that record's
exitPrice equals its entryPrice (the initial `exitPrice = entryPrice` survives
the loop) with profitOrLoss exactly 0. -/
theorem c10_theorem (event : Event) (eventTimeMs : Int) (first : PriceData)
    (rest : List PriceData) (results : List Result) (offset : ℚ)
    (hoff : offsetFor event.eventId = some offset)
    (hdead : ¬(-1 < usedLeverage event offset ∧ usedLeverage event offset < 1))
    (hbars : ∀ p ∈ first :: rest,
      NoTriggerBar (usedLeverage event offset) first.openQ eventTimeMs p) :
    processDecision event eventTimeMs (first :: rest) results =
      results ++
        [tradeRecord event eventTimeMs (usedLeverage event offset) first.openQ first.openQ false] ∧
    (tradeRecord event eventTimeMs (usedLeverage event offset) first.openQ first.openQ
        false).exitPrice =
      (tradeRecord event eventTimeMs (usedLeverage event offset) first.openQ first.openQ
        false).entryPrice ∧
    (tradeRecord event eventTimeMs (usedLeverage event offset) first.openQ first.openQ
        false).profitOrLoss = 0 := by
  refine ⟨?_, rfl, ?_⟩
  · simp only [usedLeverage, tradeRecord] at hdead hbars ⊢
    have hsim : simulateExit
        (-leverageFor (event.actual.getD event.consensus) event.consensus offset)
        first.openQ eventTimeMs (first :: rest) = (first.openQ, false) := by
      unfold simulateExit
      exact simLoop_no_trigger _ _ _ _ _ _ _ (fun p hp => hbars p hp)
    simp only [processDecision, hoff, if_true]
    rw [if_neg hdead, hsim]
  · simp only [tradeRecord]
    rw [sub_self]
    simp only [zero_mul, ite_self]
    exact toFixed2_zero

theorem c10_witness :
    offsetFor longCpiEvent.eventId = some OFFSET_CPI ∧
    ¬(-1 < usedLeverage longCpiEvent OFFSET_CPI ∧ usedLeverage longCpiEvent OFFSET_CPI < 1) ∧
    (∀ p ∈ [entryBar], NoTriggerBar (usedLeverage longCpiEvent OFFSET_CPI)
      entryBar.openQ 0 p) ∧
    (processDecision longCpiEvent 0 [entryBar] [] =
      [] ++ [tradeRecord longCpiEvent 0 (usedLeverage longCpiEvent OFFSET_CPI)
        entryBar.openQ entryBar.openQ false] ∧
    (tradeRecord longCpiEvent 0 (usedLeverage longCpiEvent OFFSET_CPI) entryBar.openQ
        entryBar.openQ false).exitPrice =
      (tradeRecord longCpiEvent 0 (usedLeverage longCpiEvent OFFSET_CPI) entryBar.openQ
        entryBar.openQ false).entryPrice ∧
    (tradeRecord longCpiEvent 0 (usedLeverage longCpiEvent OFFSET_CPI) entryBar.openQ
        entryBar.openQ false).profitOrLoss = 0) := by
  have hdead : ¬(-1 < usedLeverage longCpiEvent OFFSET_CPI ∧
      usedLeverage longCpiEvent OFFSET_CPI < 1) := by
    rw [usedLeverage_longCpi]
    norm_num
  have hgrace0 : ¬(graceElapsed 0 entryBar = true) := by
    show ¬(decide ((10 : ℚ) ≤ (((0 : ℤ) - 0 : ℤ) : ℚ) / 1000) = true)
    simp only [decide_eq_true_eq]
    norm_num
  have hb0 : NoTriggerBar (usedLeverage longCpiEvent OFFSET_CPI) entryBar.openQ 0 entryBar := by
    unfold NoTriggerBar
    rw [usedLeverage_longCpi, if_pos (by norm_num)]
    refine ⟨?_, ?_, fun hg => absurd hg hgrace0⟩
    · norm_num [takeProfitPriceFor, TAKE_PROFIT_PERCENTAGE, entryBar]
    · norm_num [stopLossPriceFor, STOP_LOSS_PERCENTAGE, entryBar]
  have hbars : ∀ p ∈ [entryBar], NoTriggerBar (usedLeverage longCpiEvent OFFSET_CPI)
      entryBar.openQ 0 p := by
    intro p hp
    rw [List.mem_singleton] at hp
    rw [hp]
    exact hb0
  exact ⟨offsetFor_cpi, hdead, hbars,
    c10_theorem longCpiEvent 0 entryBar [] [] OFFSET_CPI offsetFor_cpi hdead hbars⟩

/-! ## Claim C9: the streaming loop of `loadPricesFromPosition` -/

theorem loadLoop_no_entry (condition : PriceData → ℚ → Bool) (entryTimeMs : Int)
    (rows : List CsvRow)
    (h : ∀ row ∈ rows, parseIntJS row.tsRaw ≠ some entryTimeMs) :
    ∀ acc : List PriceData,
      loadLoop condition entryTimeMs rows true 0 acc = acc ++ rows.map toPriceData := by
  induction rows with
  | nil => intro acc; simp [loadLoop]
  | cons row rest ih =>
    intro acc
    have hrow := h row (List.mem_cons_self row rest)
    simp only [loadLoop, decide_eq_false hrow, Bool.false_and, Bool.false_eq_true,
      if_false]
    rw [decide_eq_false (show ¬((0 : ℚ) ≠ 0) from by norm_num)]
    simp only [Bool.false_and, Bool.false_eq_true, if_false]
    rw [ih (fun r hr => h r (List.mem_cons_of_mem _ hr)) (acc ++ [toPriceData row])]
    simp

/-- Claim C9.  If no row of the stream has a timestamp cell parsing to exactly
the entry time (millisecond equality), then `entryPrice` is never captured,
the stop condition is never consulted (the result does not depend on
`condition` at all), and the loop runs to end of file accumulating every
remaining bar. -/
theorem c9_theorem (file : List Char) (startPosition : Nat)
    (condition : PriceData → ℚ → Bool) (entryTimeMs : Int)
    (h : ∀ row ∈ csvRowsFrom file startPosition, parseIntJS row.tsRaw ≠ some entryTimeMs) :
    loadPricesFromPosition file startPosition condition entryTimeMs =
      (csvRowsFrom file startPosition).map toPriceData := by
  unfold loadPricesFromPosition
  rw [loadLoop_no_entry _ _ _ h []]
  simp

theorem c9_witness :
    (∀ row ∈ csvRowsFrom sampleCsvFile 0, parseIntJS row.tsRaw ≠ some 999) ∧
    loadPricesFromPosition sampleCsvFile 0 (fun _ _ => true) 999 =
      (csvRowsFrom sampleCsvFile 0).map toPriceData :=
  ⟨by decide, c9_theorem sampleCsvFile 0 (fun _ _ => true) 999 (by decide)⟩

/-! ## Claim C8: the polling loop of `launchAlgorithm` -/

/-- Claim C8.  In the recurring-fetch configuration, a whole run over any
sequence of tick outcomes calls the strategy function exactly on the first
non-null fetched value — `[v]` if one exists, `[]` otherwise, never more —
and the polling timer is cleared exactly when a non-null value was obtained
(null ticks leave it armed, so polling continues).  Ticks are modelled
cooperatively per the stated concurrency model: each tick completes before
the next fires. -/
theorem c8_theorem (fetches : List (Option ℚ)) :
    (launchAlgorithmRun false fetches).calls = (fetches.findSome? id).toList ∧
    (launchAlgorithmRun false fetches).cleared = fetches.any Option.isSome := by
  unfold launchAlgorithmRun
  induction fetches with
  | nil => exact ⟨rfl, rfl⟩
  | cons f rest ih =>
    cases f with
    | none =>
      simpa [runPolling, pollTick, List.findSome?_cons] using ih
    | some v =>
      simp [runPolling, pollTick, List.findSome?_cons]

/-! ## Claim C7: decimal digit strings -/

theorem toNat_digitCharOf (d : Nat) (hd : d < 10) : (digitCharOf d).toNat = 48 + d := by
  interval_cases d <;> decide

theorem isDigitChar_digitCharOf (d : Nat) (hd : d < 10) :
    isDigitChar (digitCharOf d) = true := by
  interval_cases d <;> decide

theorem natToRevDigitsAux_digits (fuel : Nat) :
    ∀ n, ∀ c ∈ natToRevDigitsAux fuel n, isDigitChar c = true := by
  induction fuel with
  | zero => intro n c hc; simp [natToRevDigitsAux] at hc
  | succ fuel ih =>
    intro n c hc
    by_cases hn : n = 0
    · simp [natToRevDigitsAux, hn] at hc
    · rw [natToRevDigitsAux, if_neg hn] at hc
      rcases List.mem_cons.mp hc with hc | hc
      · rw [hc]
        exact isDigitChar_digitCharOf _ (Nat.mod_lt _ (by norm_num))
      · exact ih _ c hc

theorem valLE_natToRevDigitsAux (fuel : Nat) :
    ∀ n, n < fuel → valLE (natToRevDigitsAux fuel n) = n := by
  induction fuel with
  | zero => intro n hn; omega
  | succ fuel ih =>
    intro n hn
    by_cases h0 : n = 0
    · simp [natToRevDigitsAux, h0, valLE]
    · rw [natToRevDigitsAux, if_neg h0]
      show (digitCharOf (n % 10)).toNat - 48 + 10 * valLE (natToRevDigitsAux fuel (n / 10)) = n
      rw [toNat_digitCharOf _ (Nat.mod_lt _ (by norm_num))]
      rw [ih (n / 10) (by omega)]
      omega

theorem natToRevDigitsAux_length (fuel : Nat) :
    ∀ n k, n < fuel → n < 10 ^ k → (natToRevDigitsAux fuel n).length ≤ k := by
  induction fuel with
  | zero => intro n k hn; omega
  | succ fuel ih =>
    intro n k hn hk
    by_cases h0 : n = 0
    · simp [natToRevDigitsAux, h0]
    · rw [natToRevDigitsAux, if_neg h0]
      have hk1 : 1 ≤ k := by
        by_contra hc
        interval_cases k
        · simp at hk
          omega
      have hdiv : n / 10 < 10 ^ (k - 1) := by
        have h10 : 10 ^ k = 10 ^ (k - 1) * 10 := by
          rw [← pow_succ]
          congr 1
          omega
        rw [h10] at hk
        omega
      have := ih (n / 10) (k - 1) (by omega) hdiv
      simp only [List.length_cons]
      omega

theorem digitsToNat_append_singleton (ys : List Char) (c : Char) :
    digitsToNat (ys ++ [c]) = digitsToNat ys * 10 + (c.toNat - 48) := by
  unfold digitsToNat
  rw [List.foldl_append]
  rfl

theorem digitsToNat_reverse (xs : List Char) : digitsToNat xs.reverse = valLE xs := by
  induction xs with
  | nil => rfl
  | cons c cs ih =>
    rw [List.reverse_cons, digitsToNat_append_singleton, ih]
    show _ = c.toNat - 48 + 10 * valLE cs
    ring

theorem natDigits_ne_nil (n : Nat) : natDigits n ≠ [] := by
  unfold natDigits
  by_cases h0 : n = 0
  · simp [h0]
  · rw [if_neg h0]
    intro hc
    have hv := valLE_natToRevDigitsAux (n + 1) n (by omega)
    rw [show natToRevDigitsAux (n + 1) n = [] from by
      have := congrArg List.reverse hc
      simpa using this] at hv
    simp [valLE] at hv
    omega

theorem digitsToNat_natDigits (n : Nat) : digitsToNat (natDigits n) = n := by
  unfold natDigits
  by_cases h0 : n = 0
  · simp [h0]
    decide
  · rw [if_neg h0, digitsToNat_reverse, valLE_natToRevDigitsAux (n + 1) n (by omega)]

theorem natDigits_digits (n : Nat) : ∀ c ∈ natDigits n, isDigitChar c = true := by
  unfold natDigits
  by_cases h0 : n = 0
  · rw [if_pos h0]
    intro c hc
    rw [List.mem_singleton] at hc
    rw [hc]
    decide
  · rw [if_neg h0]
    intro c hc
    exact natToRevDigitsAux_digits (n + 1) n c (List.mem_reverse.mp hc)

theorem natDigits_length_le (n k : Nat) (h : n < 10 ^ k) (hk : 1 ≤ k) :
    (natDigits n).length ≤ k := by
  unfold natDigits
  by_cases h0 : n = 0
  · rw [if_pos h0]
    simpa using hk
  · rw [if_neg h0, List.length_reverse]
    exact natToRevDigitsAux_length (n + 1) n k (by omega) h

theorem digitsToNat_leading_zeros (k : Nat) (s : List Char) :
    digitsToNat (List.replicate k '0' ++ s) = digitsToNat s := by
  induction k with
  | zero => simp
  | succ k ih =>
    rw [List.replicate_succ, List.cons_append]
    show List.foldl _ (0 * 10 + ('0'.toNat - 48)) _ = _
    rw [show 0 * 10 + ('0'.toNat - 48) = 0 from by decide]
    exact ih

theorem digitsToNat_padNum (w n : Nat) : digitsToNat (padNum w n) = n := by
  unfold padNum
  rw [digitsToNat_leading_zeros, digitsToNat_natDigits]

theorem padNum_digits (w n : Nat) : ∀ c ∈ padNum w n, isDigitChar c = true := by
  unfold padNum
  intro c hc
  rcases List.mem_append.mp hc with hc | hc
  · rcases List.mem_replicate.mp hc with ⟨-, rfl⟩
    decide
  · exact natDigits_digits n c hc

theorem padNum_length (w n : Nat) (h : n < 10 ^ w) (hw : 1 ≤ w) :
    (padNum w n).length = w := by
  unfold padNum
  rw [List.length_append, List.length_replicate]
  have := natDigits_length_le n w h hw
  omega

theorem valLE_leading_zeros (zs u : List Char) (hz : ∀ c ∈ zs, c = '0') :
    valLE (zs ++ u) = 10 ^ zs.length * valLE u := by
  induction zs with
  | nil => simp
  | cons z zt ih =>
    rw [List.cons_append]
    show z.toNat - 48 + 10 * valLE (zt ++ u) = _
    rw [hz z (List.mem_cons_self z zt), ih (fun c hc => hz c (List.mem_cons_of_mem z hc))]
    show 48 - 48 + 10 * (10 ^ zt.length * valLE u) = 10 ^ (zt.length + 1) * valLE u
    rw [pow_succ]
    ring

/-! ## Claim C7: trimming trailing zeros -/

theorem trimTrailingZeros_digits (s : List Char) (hs : ∀ c ∈ s, isDigitChar c = true) :
    ∀ c ∈ trimTrailingZeros s, isDigitChar c = true := by
  intro c hc
  unfold trimTrailingZeros at hc
  rw [List.mem_reverse] at hc
  have hc2 : c ∈ s.reverse := (List.dropWhile_sublist _).subset hc
  exact hs c (List.mem_reverse.mp hc2)

theorem trim_padNum_val (m : Nat) (hm : m < 10000) :
    (digitsToNat (trimTrailingZeros (padNum 4 m)) : ℚ) *
        10000 =
      (m : ℚ) * (10 : ℚ) ^ (trimTrailingZeros (padNum 4 m)).length := by
  have hlen : (padNum 4 m).length = 4 := padNum_length 4 m (by norm_num [hm]) (by norm_num)
  set s := padNum 4 m with hs
  set rs := s.reverse with hrs
  have hsplit : rs.takeWhile (· == '0') ++ rs.dropWhile (· == '0') = rs :=
    List.takeWhile_append_dropWhile _ _
  have hz : ∀ c ∈ rs.takeWhile (· == '0'), c = '0' := by
    intro c hc
    have := List.mem_takeWhile_imp hc
    exact eq_of_beq this
  have hm_eq : m = valLE rs := by
    rw [← digitsToNat_reverse rs, hrs, List.reverse_reverse, hs, digitsToNat_padNum]
  have hval : valLE rs = 10 ^ (rs.takeWhile (· == '0')).length *
      valLE (rs.dropWhile (· == '0')) := by
    conv_lhs => rw [← hsplit]
    exact valLE_leading_zeros _ _ hz
  have hlsum : (rs.takeWhile (· == '0')).length + (rs.dropWhile (· == '0')).length = 4 := by
    have := congrArg List.length hsplit
    rw [List.length_append] at this
    rw [this, hrs, List.length_reverse, hlen]
  have htrim : digitsToNat (trimTrailingZeros s) = valLE (rs.dropWhile (· == '0')) := by
    unfold trimTrailingZeros
    rw [digitsToNat_reverse]
  have htlen : (trimTrailingZeros s).length = (rs.dropWhile (· == '0')).length := by
    unfold trimTrailingZeros
    rw [List.length_reverse]
  rw [htrim, htlen, hm_eq, hval]
  push_cast
  rw [show (10000 : ℚ) = 10 ^ 4 from by norm_num, ← hlsum]
  rw [pow_add]
  ring

theorem trim_padNum_empty_iff (m : Nat) (hm : m < 10000) :
    (trimTrailingZeros (padNum 4 m)).isEmpty = true ↔ m = 0 := by
  constructor
  · intro h
    have hval := trim_padNum_val m hm
    rw [List.isEmpty_iff] at h
    rw [h] at hval
    have h0 : (digitsToNat ([] : List Char) : ℚ) = 0 := by
      rw [show digitsToNat ([] : List Char) = 0 from rfl]
      norm_num
    rw [h0, List.length_nil, pow_zero, mul_one, zero_mul] at hval
    have : (m : ℚ) = 0 := hval.symm
    exact_mod_cast this
  · intro h
    subst h
    decide

/-! ## Claim C7: scanning helpers and character classes -/

theorem takeWhile_digits_append (ds rest : List Char)
    (hds : ∀ c ∈ ds, isDigitChar c = true)
    (hrest : ∀ c, rest.head? = some c → isDigitChar c = false) :
    (ds ++ rest).takeWhile isDigitChar = ds ∧
    (ds ++ rest).dropWhile isDigitChar = rest := by
  induction ds with
  | nil =>
    simp only [List.nil_append]
    cases rest with
    | nil => exact ⟨rfl, rfl⟩
    | cons c r =>
      rw [List.takeWhile_cons, List.dropWhile_cons, hrest c rfl]
      simp
  | cons d dt ih =>
    rw [List.cons_append, List.takeWhile_cons, List.dropWhile_cons,
      hds d (List.mem_cons_self d dt)]
    have := ih (fun c hc => hds c (List.mem_cons_of_mem d hc))
    simp only [if_true]
    exact ⟨by rw [this.1], by rw [this.2]⟩

theorem digit_char_bounds (c : Char) (h : isDigitChar c = true) :
    48 ≤ c.toNat ∧ c.toNat ≤ 57 := by
  unfold isDigitChar at h
  rw [Bool.and_eq_true, decide_eq_true_eq, decide_eq_true_eq] at h
  obtain ⟨h1, h2⟩ := h
  rw [Char.le_def] at h1 h2
  constructor
  · exact_mod_cast h1
  · exact_mod_cast h2

theorem digit_ne (c w : Char) (h : isDigitChar c = true)
    (hw : w.toNat < 48 ∨ 57 < w.toNat) : (c == w) = false := by
  rw [beq_eq_false_iff_ne]
  intro he
  obtain ⟨h1, h2⟩ := digit_char_bounds c h
  rw [he] at h1 h2
  omega

theorem cleanStr_append (xs ys : List Char) (hx : CleanStr xs) (hy : CleanStr ys) :
    CleanStr (xs ++ ys) := by
  intro c hc
  rcases List.mem_append.mp hc with hc | hc
  · exact hx c hc
  · exact hy c hc

theorem cleanStr_cons (c : Char) (s : List Char)
    (hc : c ≠ quoteChar ∧ c ≠ backslashChar) (hs : CleanStr s) : CleanStr (c :: s) := by
  intro d hd
  rcases List.mem_cons.mp hd with hd | hd
  · rw [hd]; exact hc
  · exact hs d hd

theorem cleanStr_of_digits (s : List Char) (hs : ∀ c ∈ s, isDigitChar c = true) :
    CleanStr s := by
  intro c hc
  obtain ⟨h1, h2⟩ := digit_char_bounds c (hs c hc)
  constructor
  · intro he
    rw [he] at h1 h2
    revert h1 h2
    decide
  · intro he
    rw [he] at h1 h2
    revert h1 h2
    decide

theorem toISOString_clean (ms : Int) : CleanStr (toISOString ms) := by
  unfold toISOString
  have hpad : ∀ w n, CleanStr (padNum w n) :=
    fun w n => cleanStr_of_digits _ (padNum_digits w n)
  have hyear : ∀ y, CleanStr (yearStr y) := by
    intro y
    unfold yearStr
    split
    · exact hpad 4 _
    · split
      · exact cleanStr_cons _ _ (by constructor <;> decide) (hpad 6 _)
      · exact cleanStr_cons _ _ (by constructor <;> decide) (hpad 6 _)
  have hz : CleanStr ['Z'] := by
    intro c hc
    rw [List.mem_singleton] at hc
    rw [hc]
    constructor <;> decide
  refine cleanStr_append _ _ ?_ hz
  refine cleanStr_append _ _ ?_ (cleanStr_cons _ _ (by constructor <;> decide) (hpad 3 _))
  refine cleanStr_append _ _ ?_ (cleanStr_cons _ _ (by constructor <;> decide) (hpad 2 _))
  refine cleanStr_append _ _ ?_ (cleanStr_cons _ _ (by constructor <;> decide) (hpad 2 _))
  refine cleanStr_append _ _ ?_ (cleanStr_cons _ _ (by constructor <;> decide) (hpad 2 _))
  refine cleanStr_append _ _ ?_ (cleanStr_cons _ _ (by constructor <;> decide) (hpad 2 _))
  exact cleanStr_append _ _ (hyear _)
    (cleanStr_cons _ _ (by constructor <;> decide) (hpad 2 _))

/-! ## Claim C7: string and whitespace plumbing -/

theorem printJString_append (s t : List Char) :
    printJString s ++ t = quoteChar :: (s ++ quoteChar :: t) := by
  simp [printJString, List.append_assoc]

theorem skipWs_cons (c : Char) (s : List Char) (h : isJsonWs c = false) :
    skipWs (c :: s) = c :: s := by
  simp [skipWs, List.dropWhile_cons, h]

theorem head_cons_constraints (a : Char) (xs : List Char)
    (h1 : isDigitChar a = false) (h2 : (a == '.') = false) :
    ∀ c, (a :: xs).head? = some c → isDigitChar c = false ∧ (c == '.') = false := by
  intro c hc
  rw [List.head?_cons] at hc
  injection hc with hc
  subst hc
  exact ⟨h1, h2⟩

theorem parseStringBody_clean : ∀ (s : List Char), CleanStr s → ∀ acc rest,
    parseStringBody (s ++ quoteChar :: rest) acc = some (acc.reverse ++ s, rest) := by
  intro s
  induction s with
  | nil =>
    intro _ acc rest
    simp [parseStringBody]
  | cons c t ih =>
    intro hs acc rest
    have hc := hs c (List.mem_cons_self c t)
    have ht : CleanStr t := fun d hd => hs d (List.mem_cons_of_mem c hd)
    rw [List.cons_append]
    simp only [parseStringBody, beq_iff_eq]
    rw [if_neg hc.1, if_neg hc.2, ih ht (c :: acc) rest]
    simp

theorem strFieldChunk_append (key v tail : List Char) :
    strFieldChunk key v ++ tail =
      quoteChar :: (key ++ quoteChar :: ':' :: (printJString v ++ tail)) := by
  simp [strFieldChunk, printJString, List.append_assoc]

theorem numFieldChunk_append (key tail : List Char) (q : ℚ) :
    numFieldChunk key q ++ tail =
      quoteChar :: (key ++ quoteChar :: ':' :: (printNum q ++ tail)) := by
  simp [numFieldChunk, printJString, List.append_assoc]

theorem div_mod_decomp (n : Nat) :
    ((n / 10000 : ℕ) : ℚ) + ((n % 10000 : ℕ) : ℚ) / 10000 = (n : ℚ) / 10000 := by
  have h := Nat.div_add_mod n 10000
  have h2 : ((10000 * (n / 10000) + n % 10000 : ℕ) : ℚ) = (n : ℚ) := by
    exact_mod_cast congrArg (fun m : ℕ => (m : ℚ)) h
  push_cast at h2
  field_simp
  linarith

theorem abs_decimal4_eq (q : ℚ) (hq : Decimal4 q) :
    (((|q| * 10000).num.toNat : ℕ) : ℚ) = |q| * 10000 := by
  have hpos : 0 ≤ (|q| * 10000).num := Rat.num_nonneg.mpr (by positivity)
  have h1 : (((|q| * 10000).num.toNat : ℕ) : ℤ) = (|q| * 10000).num :=
    Int.toNat_of_nonneg hpos
  have h2 : (((|q| * 10000).num : ℤ) : ℚ) = |q| * 10000 := by
    conv_rhs => rw [← Rat.num_div_den (|q| * 10000)]
    rw [Decimal4] at hq
    rw [hq]
    norm_num
  calc (((|q| * 10000).num.toNat : ℕ) : ℚ)
      = ((((|q| * 10000).num.toNat : ℕ) : ℤ) : ℚ) := by push_cast; ring
    _ = (((|q| * 10000).num : ℤ) : ℚ) := by rw [h1]
    _ = |q| * 10000 := h2

theorem not_ws_of_digit (c : Char) (h : isDigitChar c = true) : isJsonWs c = false := by
  rw [isJsonWs]
  rw [digit_ne c ' ' h (Or.inl (by decide)), digit_ne c '\t' h (Or.inl (by decide)),
    digit_ne c '\n' h (Or.inl (by decide)), digit_ne c '\r' h (Or.inl (by decide))]
  rfl

/-! ## Claim C7: number round-trip -/

theorem parseUnsigned_print (n : Nat) (rest : List Char)
    (hrest : ∀ c, rest.head? = some c → isDigitChar c = false ∧ (c == '.') = false) :
    parseUnsignedJsonNumber
      (natDigits (n / 10000) ++
        ((if (trimTrailingZeros (padNum 4 (n % 10000))).isEmpty then []
          else '.' :: trimTrailingZeros (padNum 4 (n % 10000))) ++ rest)) =
      some ((n : ℚ) / 10000, rest) := by
  have hmod : n % 10000 < 10000 := Nat.mod_lt n (by norm_num)
  have hipd : ∀ c ∈ natDigits (n / 10000), isDigitChar c = true := natDigits_digits _
  have hfdd : ∀ c ∈ trimTrailingZeros (padNum 4 (n % 10000)), isDigitChar c = true :=
    trimTrailingZeros_digits _ (padNum_digits 4 _)
  have hipne : (natDigits (n / 10000)).isEmpty = false := by
    cases hip : natDigits (n / 10000) with
    | nil => exact absurd hip (natDigits_ne_nil _)
    | cons a l => rfl
  by_cases hfe : (trimTrailingZeros (padNum 4 (n % 10000))).isEmpty = true
  · have hm0 : n % 10000 = 0 := (trim_padNum_empty_iff _ hmod).mp hfe
    have hval : ((n / 10000 : ℕ) : ℚ) = (n : ℚ) / 10000 := by
      have hd := div_mod_decomp n
      rw [hm0] at hd
      simpa using hd
    rw [if_pos hfe, List.nil_append]
    have htd := takeWhile_digits_append (natDigits (n / 10000)) rest hipd
      (fun c hc => (hrest c hc).1)
    simp only [parseUnsignedJsonNumber]
    rw [htd.1, htd.2]
    simp only [hipne, Bool.false_eq_true, if_false]
    cases rest with
    | nil =>
      rw [digitsToNat_natDigits, hval]
    | cons c r =>
      have hcr := hrest c rfl
      simp only [hcr.2, Bool.false_eq_true, if_false]
      rw [digitsToNat_natDigits, hval]
  · rw [if_neg hfe]
    rw [Bool.not_eq_true] at hfe
    rw [List.cons_append]
    have htd := takeWhile_digits_append (natDigits (n / 10000))
      ('.' :: (trimTrailingZeros (padNum 4 (n % 10000)) ++ rest)) hipd
      (by
        intro c hc
        rw [List.head?_cons] at hc
        injection hc with hc
        subst hc
        decide)
    have htd2 := takeWhile_digits_append (trimTrailingZeros (padNum 4 (n % 10000))) rest hfdd
      (fun c hc => (hrest c hc).1)
    simp only [parseUnsignedJsonNumber]
    rw [htd.1, htd.2]
    simp only [hipne, Bool.false_eq_true, if_false, beq_self_eq_true, if_true]
    rw [htd2.1, htd2.2]
    simp only [hfe, Bool.false_eq_true, if_false]
    have h10 : ((10 : ℚ)) ^ (trimTrailingZeros (padNum 4 (n % 10000))).length ≠ 0 :=
      pow_ne_zero _ (by norm_num)
    have hfrac : (digitsToNat (trimTrailingZeros (padNum 4 (n % 10000))) : ℚ) /
        10 ^ (trimTrailingZeros (padNum 4 (n % 10000))).length =
        ((n % 10000 : ℕ) : ℚ) / 10000 := by
      field_simp
      linarith [trim_padNum_val (n % 10000) hmod]
    rw [digitsToNat_natDigits, hfrac, div_mod_decomp]

theorem parseJsonNumber_digit_head (d : Char) (t rest : List Char)
    (hd : isDigitChar d = true) :
    parseJsonNumber ((d :: t) ++ rest) = parseUnsignedJsonNumber ((d :: t) ++ rest) := by
  rw [List.cons_append]
  simp only [parseJsonNumber]
  rw [digit_ne d '-' hd (Or.inl (by decide))]
  simp [List.cons_append]

theorem parseJsonNumber_printNum (q : ℚ) (hq : Decimal4 q) (rest : List Char)
    (hrest : ∀ c, rest.head? = some c → isDigitChar c = false ∧ (c == '.') = false) :
    parseJsonNumber (printNum q ++ rest) = some (q, rest) := by
  have hq_abs : |q| = (((|q| * 10000).num.toNat : ℕ) : ℚ) / 10000 := by
    rw [abs_decimal4_eq q hq]
    ring
  by_cases hqn : q < 0
  · have hpr : printNum q ++ rest =
        '-' :: (natDigits ((|q| * 10000).num.toNat / 10000) ++
          ((if (trimTrailingZeros (padNum 4 ((|q| * 10000).num.toNat % 10000))).isEmpty then []
            else '.' :: trimTrailingZeros (padNum 4 ((|q| * 10000).num.toNat % 10000))) ++
            rest)) := by
      simp only [printNum]
      rw [if_pos hqn]
      simp [List.append_assoc]
    rw [hpr]
    simp only [parseJsonNumber, beq_self_eq_true, if_true]
    rw [parseUnsigned_print _ rest hrest]
    have hqval : q = -((((|q| * 10000).num.toNat : ℕ) : ℚ) / 10000) := by
      rw [← hq_abs, abs_of_neg hqn]
      ring
    conv_rhs => rw [hqval]
    rfl
  · have hpr : printNum q ++ rest =
        natDigits ((|q| * 10000).num.toNat / 10000) ++
          ((if (trimTrailingZeros (padNum 4 ((|q| * 10000).num.toNat % 10000))).isEmpty then []
            else '.' :: trimTrailingZeros (padNum 4 ((|q| * 10000).num.toNat % 10000))) ++
            rest) := by
      simp only [printNum]
      rw [if_neg hqn]
      simp [List.append_assoc]
    obtain ⟨d, t, hd⟩ := List.exists_cons_of_ne_nil
      (natDigits_ne_nil ((|q| * 10000).num.toNat / 10000))
    have hddig : isDigitChar d = true :=
      natDigits_digits _ d (by rw [hd]; exact List.mem_cons_self d t)
    have hjn : parseJsonNumber (printNum q ++ rest) =
        parseUnsignedJsonNumber (printNum q ++ rest) := by
      rw [hpr, hd]
      exact parseJsonNumber_digit_head d t _ hddig
    rw [hjn, hpr, parseUnsigned_print _ rest hrest]
    have hqval : q = (((|q| * 10000).num.toNat : ℕ) : ℚ) / 10000 := by
      rw [← hq_abs, abs_of_nonneg (not_lt.mp hqn)]
    rw [← hqval]

/-! ## Claim C7: scalar parsing -/

theorem parseScalar_string (v tail : List Char) (hv : CleanStr v) :
    parseScalar (printJString v ++ tail) = some (JScalar.str v, tail) := by
  rw [printJString_append]
  simp only [parseScalar]
  rw [skipWs_cons _ _ (by decide)]
  simp only [beq_self_eq_true, if_true]
  rw [show parseStringBody (v ++ quoteChar :: tail) [] = some (v, tail) from by
    simpa using parseStringBody_clean v hv [] tail]
  simp

theorem printNum_shape (q : ℚ) (rest : List Char) :
    ∃ c tl, printNum q ++ rest = c :: tl ∧ isJsonWs c = false ∧ (c == quoteChar) = false := by
  by_cases hq : q < 0
  · refine ⟨'-', natDigits ((|q| * 10000).num.toNat / 10000) ++
      ((if (trimTrailingZeros (padNum 4 ((|q| * 10000).num.toNat % 10000))).isEmpty then []
        else '.' :: trimTrailingZeros (padNum 4 ((|q| * 10000).num.toNat % 10000))) ++ rest),
      ?_, by decide, by decide⟩
    simp only [printNum]
    rw [if_pos hq]
    simp [List.append_assoc]
  · obtain ⟨d, t, hd⟩ := List.exists_cons_of_ne_nil
      (natDigits_ne_nil ((|q| * 10000).num.toNat / 10000))
    have hddig : isDigitChar d = true :=
      natDigits_digits _ d (by rw [hd]; exact List.mem_cons_self d t)
    refine ⟨d, t ++
      ((if (trimTrailingZeros (padNum 4 ((|q| * 10000).num.toNat % 10000))).isEmpty then []
        else '.' :: trimTrailingZeros (padNum 4 ((|q| * 10000).num.toNat % 10000))) ++ rest),
      ?_, not_ws_of_digit d hddig, digit_ne d quoteChar hddig (Or.inl (by decide))⟩
    simp only [printNum]
    rw [if_neg hq, hd]
    simp [List.append_assoc]

theorem parseScalar_number (q : ℚ) (hq : Decimal4 q) (rest : List Char)
    (hrest : ∀ c, rest.head? = some c → isDigitChar c = false ∧ (c == '.') = false) :
    parseScalar (printNum q ++ rest) = some (JScalar.num q, rest) := by
  obtain ⟨c, tl, hshape, hws, hquote⟩ := printNum_shape q rest
  simp only [parseScalar]
  rw [hshape, skipWs_cons _ _ hws]
  simp only [hquote, Bool.false_eq_true, if_false]
  rw [← hshape, parseJsonNumber_printNum q hq rest hrest]
  simp

/-! ## Claim C7: object member parsing -/

theorem parseMembers_step_comma (fuel : Nat) (key body rest2 r4 : List Char)
    (val : JScalar) (acc : List (List Char × JScalar)) (hk : CleanStr key)
    (hbody : parseScalar body = some (val, rest2))
    (htail : skipWs rest2 = ',' :: r4) :
    parseMembers (fuel + 1) (quoteChar :: (key ++ quoteChar :: ':' :: body)) acc =
      parseMembers fuel r4 (acc ++ [(key, val)]) := by
  have hkey : parseStringBody (key ++ quoteChar :: ':' :: body) [] =
      some (key, ':' :: body) := by
    simpa using parseStringBody_clean key hk [] (':' :: body)
  have hsq : ∀ t : List Char, skipWs (quoteChar :: t) = quoteChar :: t :=
    fun t => skipWs_cons _ _ (by decide)
  have hsc : ∀ t : List Char, skipWs (':' :: t) = ':' :: t :=
    fun t => skipWs_cons _ _ (by decide)
  conv_lhs => rw [parseMembers]
  simp only [hsq, hsc, beq_self_eq_true, if_true, hkey, hbody, htail]

theorem parseMembers_step_close (fuel : Nat) (key body rest2 r4 : List Char)
    (val : JScalar) (acc : List (List Char × JScalar)) (hk : CleanStr key)
    (hbody : parseScalar body = some (val, rest2))
    (htail : skipWs rest2 = rbraceChar :: r4) :
    parseMembers (fuel + 1) (quoteChar :: (key ++ quoteChar :: ':' :: body)) acc =
      some (acc ++ [(key, val)], r4) := by
  have hkey : parseStringBody (key ++ quoteChar :: ':' :: body) [] =
      some (key, ':' :: body) := by
    simpa using parseStringBody_clean key hk [] (':' :: body)
  have hsq : ∀ t : List Char, skipWs (quoteChar :: t) = quoteChar :: t :=
    fun t => skipWs_cons _ _ (by decide)
  have hsc : ∀ t : List Char, skipWs (':' :: t) = ':' :: t :=
    fun t => skipWs_cons _ _ (by decide)
  conv_lhs => rw [parseMembers]
  simp only [hsq, hsc, beq_self_eq_true, if_true, hkey, hbody, htail, rbraceChar]
  rfl

theorem parseResultJson_shape (body r2 : List Char) (c2 : Char) (fs : List (List Char × JScalar))
    (hb : body = c2 :: r2) (hws : isJsonWs c2 = false) (hbr : (c2 == rbraceChar) = false)
    (hmem : parseMembers (body.length + 2) body [] = some (fs, [])) :
    parseResultJson (lbraceChar :: body) = some fs := by
  subst hb
  simp only [parseResultJson]
  rw [skipWs_cons _ _ (by decide)]
  simp only [beq_self_eq_true, if_true]
  rw [skipWs_cons _ _ hws]
  simp only [hbr, Bool.false_eq_true, if_false]
  rw [show (lbraceChar :: c2 :: r2).length + 1 = (c2 :: r2).length + 2 from by
    simp only [List.length_cons]]
  rw [hmem]
  simp [skipWs]

theorem parseResultJson_stringify (r : Result) (he : CleanStr r.event.data)
    (ha : CleanStr r.action.data) (h1 : Decimal4 r.entryPrice) (h2 : Decimal4 r.exitPrice)
    (h3 : Decimal4 r.profitOrLoss) (h4 : Decimal4 r.amountBTC) :
    parseResultJson (stringifyResult r) =
      some [(chars "date", JScalar.str (toISOString r.date)),
            (chars "event", JScalar.str r.event.data),
            (chars "action", JScalar.str r.action.data),
            (chars "entryPrice", JScalar.num r.entryPrice),
            (chars "exitPrice", JScalar.num r.exitPrice),
            (chars "profitOrLoss", JScalar.num r.profitOrLoss),
            (chars "amountBTC", JScalar.num r.amountBTC)] := by
  obtain ⟨k, hk⟩ : ∃ k,
      (strFieldChunk (chars "date") (toISOString r.date) ++
        (',' :: (strFieldChunk (chars "event") r.event.data ++
          (',' :: (strFieldChunk (chars "action") r.action.data ++
            (',' :: (numFieldChunk (chars "entryPrice") r.entryPrice ++
              (',' :: (numFieldChunk (chars "exitPrice") r.exitPrice ++
                (',' :: (numFieldChunk (chars "profitOrLoss") r.profitOrLoss ++
                  (',' :: (numFieldChunk (chars "amountBTC") r.amountBTC ++
                    [rbraceChar]))))))))))))).length + 2 = k + 7 := by
    have h5 : 5 ≤ (strFieldChunk (chars "date") (toISOString r.date) ++
        (',' :: (strFieldChunk (chars "event") r.event.data ++
          (',' :: (strFieldChunk (chars "action") r.action.data ++
            (',' :: (numFieldChunk (chars "entryPrice") r.entryPrice ++
              (',' :: (numFieldChunk (chars "exitPrice") r.exitPrice ++
                (',' :: (numFieldChunk (chars "profitOrLoss") r.profitOrLoss ++
                  (',' :: (numFieldChunk (chars "amountBTC") r.amountBTC ++
                    [rbraceChar]))))))))))))).length := by
      simp only [strFieldChunk, numFieldChunk, printJString, List.length_append,
        List.length_cons, List.length_nil]
      omega
    exact ⟨_, (Nat.sub_add_cancel (by omega)).symm⟩
  have s7 : ∀ acc, parseMembers (k + 1)
      (numFieldChunk (chars "amountBTC") r.amountBTC ++ [rbraceChar]) acc =
      some (acc ++ [(chars "amountBTC", JScalar.num r.amountBTC)], []) := by
    intro acc
    rw [numFieldChunk_append]
    exact parseMembers_step_close k (chars "amountBTC")
      (printNum r.amountBTC ++ [rbraceChar]) [rbraceChar] []
      (JScalar.num r.amountBTC) acc (by unfold CleanStr; decide)
      (parseScalar_number r.amountBTC h4 [rbraceChar]
        (head_cons_constraints rbraceChar [] (by decide) (by decide)))
      (skipWs_cons rbraceChar [] (by decide))
  have s6 : ∀ acc, parseMembers (k + 2)
      (numFieldChunk (chars "profitOrLoss") r.profitOrLoss ++
        (',' :: (numFieldChunk (chars "amountBTC") r.amountBTC ++ [rbraceChar]))) acc =
      some (acc ++ [(chars "profitOrLoss", JScalar.num r.profitOrLoss),
                    (chars "amountBTC", JScalar.num r.amountBTC)], []) := by
    intro acc
    rw [numFieldChunk_append, show k + 2 = k + 1 + 1 from rfl]
    rw [parseMembers_step_comma (k + 1) (chars "profitOrLoss")
      (printNum r.profitOrLoss ++
        (',' :: (numFieldChunk (chars "amountBTC") r.amountBTC ++ [rbraceChar])))
      (',' :: (numFieldChunk (chars "amountBTC") r.amountBTC ++ [rbraceChar]))
      (numFieldChunk (chars "amountBTC") r.amountBTC ++ [rbraceChar])
      (JScalar.num r.profitOrLoss) acc (by unfold CleanStr; decide)
      (parseScalar_number r.profitOrLoss h3 _
        (head_cons_constraints ',' _ (by decide) (by decide)))
      (skipWs_cons ',' _ (by decide))]
    rw [s7]
    simp
  have s5 : ∀ acc, parseMembers (k + 3)
      (numFieldChunk (chars "exitPrice") r.exitPrice ++
        (',' :: (numFieldChunk (chars "profitOrLoss") r.profitOrLoss ++
          (',' :: (numFieldChunk (chars "amountBTC") r.amountBTC ++ [rbraceChar]))))) acc =
      some (acc ++ [(chars "exitPrice", JScalar.num r.exitPrice),
                    (chars "profitOrLoss", JScalar.num r.profitOrLoss),
                    (chars "amountBTC", JScalar.num r.amountBTC)], []) := by
    intro acc
    rw [numFieldChunk_append, show k + 3 = k + 2 + 1 from rfl]
    rw [parseMembers_step_comma (k + 2) (chars "exitPrice")
      (printNum r.exitPrice ++
        (',' :: (numFieldChunk (chars "profitOrLoss") r.profitOrLoss ++
          (',' :: (numFieldChunk (chars "amountBTC") r.amountBTC ++ [rbraceChar])))))
      (',' :: (numFieldChunk (chars "profitOrLoss") r.profitOrLoss ++
        (',' :: (numFieldChunk (chars "amountBTC") r.amountBTC ++ [rbraceChar]))))
      (numFieldChunk (chars "profitOrLoss") r.profitOrLoss ++
        (',' :: (numFieldChunk (chars "amountBTC") r.amountBTC ++ [rbraceChar])))
      (JScalar.num r.exitPrice) acc (by unfold CleanStr; decide)
      (parseScalar_number r.exitPrice h2 _
        (head_cons_constraints ',' _ (by decide) (by decide)))
      (skipWs_cons ',' _ (by decide))]
    rw [s6]
    simp
  have s4 : ∀ acc, parseMembers (k + 4)
      (numFieldChunk (chars "entryPrice") r.entryPrice ++
        (',' :: (numFieldChunk (chars "exitPrice") r.exitPrice ++
          (',' :: (numFieldChunk (chars "profitOrLoss") r.profitOrLoss ++
            (',' :: (numFieldChunk (chars "amountBTC") r.amountBTC ++
              [rbraceChar]))))))) acc =
      some (acc ++ [(chars "entryPrice", JScalar.num r.entryPrice),
                    (chars "exitPrice", JScalar.num r.exitPrice),
                    (chars "profitOrLoss", JScalar.num r.profitOrLoss),
                    (chars "amountBTC", JScalar.num r.amountBTC)], []) := by
    intro acc
    rw [numFieldChunk_append, show k + 4 = k + 3 + 1 from rfl]
    rw [parseMembers_step_comma (k + 3) (chars "entryPrice")
      (printNum r.entryPrice ++
        (',' :: (numFieldChunk (chars "exitPrice") r.exitPrice ++
          (',' :: (numFieldChunk (chars "profitOrLoss") r.profitOrLoss ++
            (',' :: (numFieldChunk (chars "amountBTC") r.amountBTC ++ [rbraceChar])))))))
      (',' :: (numFieldChunk (chars "exitPrice") r.exitPrice ++
        (',' :: (numFieldChunk (chars "profitOrLoss") r.profitOrLoss ++
          (',' :: (numFieldChunk (chars "amountBTC") r.amountBTC ++ [rbraceChar]))))))
      (numFieldChunk (chars "exitPrice") r.exitPrice ++
        (',' :: (numFieldChunk (chars "profitOrLoss") r.profitOrLoss ++
          (',' :: (numFieldChunk (chars "amountBTC") r.amountBTC ++ [rbraceChar])))))
      (JScalar.num r.entryPrice) acc (by unfold CleanStr; decide)
      (parseScalar_number r.entryPrice h1 _
        (head_cons_constraints ',' _ (by decide) (by decide)))
      (skipWs_cons ',' _ (by decide))]
    rw [s5]
    simp
  have s3 : ∀ acc, parseMembers (k + 5)
      (strFieldChunk (chars "action") r.action.data ++
        (',' :: (numFieldChunk (chars "entryPrice") r.entryPrice ++
          (',' :: (numFieldChunk (chars "exitPrice") r.exitPrice ++
            (',' :: (numFieldChunk (chars "profitOrLoss") r.profitOrLoss ++
              (',' :: (numFieldChunk (chars "amountBTC") r.amountBTC ++
                [rbraceChar]))))))))) acc =
      some (acc ++ [(chars "action", JScalar.str r.action.data),
                    (chars "entryPrice", JScalar.num r.entryPrice),
                    (chars "exitPrice", JScalar.num r.exitPrice),
                    (chars "profitOrLoss", JScalar.num r.profitOrLoss),
                    (chars "amountBTC", JScalar.num r.amountBTC)], []) := by
    intro acc
    rw [strFieldChunk_append, show k + 5 = k + 4 + 1 from rfl]
    rw [parseMembers_step_comma (k + 4) (chars "action")
      (printJString r.action.data ++
        (',' :: (numFieldChunk (chars "entryPrice") r.entryPrice ++
          (',' :: (numFieldChunk (chars "exitPrice") r.exitPrice ++
            (',' :: (numFieldChunk (chars "profitOrLoss") r.profitOrLoss ++
              (',' :: (numFieldChunk (chars "amountBTC") r.amountBTC ++ [rbraceChar])))))))))
      (',' :: (numFieldChunk (chars "entryPrice") r.entryPrice ++
        (',' :: (numFieldChunk (chars "exitPrice") r.exitPrice ++
          (',' :: (numFieldChunk (chars "profitOrLoss") r.profitOrLoss ++
            (',' :: (numFieldChunk (chars "amountBTC") r.amountBTC ++ [rbraceChar]))))))))
      (numFieldChunk (chars "entryPrice") r.entryPrice ++
        (',' :: (numFieldChunk (chars "exitPrice") r.exitPrice ++
          (',' :: (numFieldChunk (chars "profitOrLoss") r.profitOrLoss ++
            (',' :: (numFieldChunk (chars "amountBTC") r.amountBTC ++ [rbraceChar])))))))
      (JScalar.str r.action.data) acc (by unfold CleanStr; decide)
      (parseScalar_string r.action.data _ ha)
      (skipWs_cons ',' _ (by decide))]
    rw [s4]
    simp
  have s2 : ∀ acc, parseMembers (k + 6)
      (strFieldChunk (chars "event") r.event.data ++
        (',' :: (strFieldChunk (chars "action") r.action.data ++
          (',' :: (numFieldChunk (chars "entryPrice") r.entryPrice ++
            (',' :: (numFieldChunk (chars "exitPrice") r.exitPrice ++
              (',' :: (numFieldChunk (chars "profitOrLoss") r.profitOrLoss ++
                (',' :: (numFieldChunk (chars "amountBTC") r.amountBTC ++
                  [rbraceChar]))))))))))) acc =
      some (acc ++ [(chars "event", JScalar.str r.event.data),
                    (chars "action", JScalar.str r.action.data),
                    (chars "entryPrice", JScalar.num r.entryPrice),
                    (chars "exitPrice", JScalar.num r.exitPrice),
                    (chars "profitOrLoss", JScalar.num r.profitOrLoss),
                    (chars "amountBTC", JScalar.num r.amountBTC)], []) := by
    intro acc
    rw [strFieldChunk_append, show k + 6 = k + 5 + 1 from rfl]
    rw [parseMembers_step_comma (k + 5) (chars "event")
      (printJString r.event.data ++
        (',' :: (strFieldChunk (chars "action") r.action.data ++
          (',' :: (numFieldChunk (chars "entryPrice") r.entryPrice ++
            (',' :: (numFieldChunk (chars "exitPrice") r.exitPrice ++
              (',' :: (numFieldChunk (chars "profitOrLoss") r.profitOrLoss ++
                (',' :: (numFieldChunk (chars "amountBTC") r.amountBTC ++
                  [rbraceChar])))))))))))
      (',' :: (strFieldChunk (chars "action") r.action.data ++
        (',' :: (numFieldChunk (chars "entryPrice") r.entryPrice ++
          (',' :: (numFieldChunk (chars "exitPrice") r.exitPrice ++
            (',' :: (numFieldChunk (chars "profitOrLoss") r.profitOrLoss ++
              (',' :: (numFieldChunk (chars "amountBTC") r.amountBTC ++
                [rbraceChar]))))))))))
      (strFieldChunk (chars "action") r.action.data ++
        (',' :: (numFieldChunk (chars "entryPrice") r.entryPrice ++
          (',' :: (numFieldChunk (chars "exitPrice") r.exitPrice ++
            (',' :: (numFieldChunk (chars "profitOrLoss") r.profitOrLoss ++
              (',' :: (numFieldChunk (chars "amountBTC") r.amountBTC ++
                [rbraceChar])))))))))
      (JScalar.str r.event.data) acc (by unfold CleanStr; decide)
      (parseScalar_string r.event.data _ he)
      (skipWs_cons ',' _ (by decide))]
    rw [s3]
    simp
  have s1 : ∀ acc, parseMembers (k + 7)
      (strFieldChunk (chars "date") (toISOString r.date) ++
        (',' :: (strFieldChunk (chars "event") r.event.data ++
          (',' :: (strFieldChunk (chars "action") r.action.data ++
            (',' :: (numFieldChunk (chars "entryPrice") r.entryPrice ++
              (',' :: (numFieldChunk (chars "exitPrice") r.exitPrice ++
                (',' :: (numFieldChunk (chars "profitOrLoss") r.profitOrLoss ++
                  (',' :: (numFieldChunk (chars "amountBTC") r.amountBTC ++
                    [rbraceChar]))))))))))))) acc =
      some (acc ++ [(chars "date", JScalar.str (toISOString r.date)),
                    (chars "event", JScalar.str r.event.data),
                    (chars "action", JScalar.str r.action.data),
                    (chars "entryPrice", JScalar.num r.entryPrice),
                    (chars "exitPrice", JScalar.num r.exitPrice),
                    (chars "profitOrLoss", JScalar.num r.profitOrLoss),
                    (chars "amountBTC", JScalar.num r.amountBTC)], []) := by
    intro acc
    rw [strFieldChunk_append, show k + 7 = k + 6 + 1 from rfl]
    rw [parseMembers_step_comma (k + 6) (chars "date")
      (printJString (toISOString r.date) ++
        (',' :: (strFieldChunk (chars "event") r.event.data ++
          (',' :: (strFieldChunk (chars "action") r.action.data ++
            (',' :: (numFieldChunk (chars "entryPrice") r.entryPrice ++
              (',' :: (numFieldChunk (chars "exitPrice") r.exitPrice ++
                (',' :: (numFieldChunk (chars "profitOrLoss") r.profitOrLoss ++
                  (',' :: (numFieldChunk (chars "amountBTC") r.amountBTC ++
                    [rbraceChar])))))))))))))
      (',' :: (strFieldChunk (chars "event") r.event.data ++
        (',' :: (strFieldChunk (chars "action") r.action.data ++
          (',' :: (numFieldChunk (chars "entryPrice") r.entryPrice ++
            (',' :: (numFieldChunk (chars "exitPrice") r.exitPrice ++
              (',' :: (numFieldChunk (chars "profitOrLoss") r.profitOrLoss ++
                (',' :: (numFieldChunk (chars "amountBTC") r.amountBTC ++
                  [rbraceChar]))))))))))))
      (strFieldChunk (chars "event") r.event.data ++
        (',' :: (strFieldChunk (chars "action") r.action.data ++
          (',' :: (numFieldChunk (chars "entryPrice") r.entryPrice ++
            (',' :: (numFieldChunk (chars "exitPrice") r.exitPrice ++
              (',' :: (numFieldChunk (chars "profitOrLoss") r.profitOrLoss ++
                (',' :: (numFieldChunk (chars "amountBTC") r.amountBTC ++
                  [rbraceChar])))))))))))
      (JScalar.str (toISOString r.date)) acc (by unfold CleanStr; decide)
      (parseScalar_string (toISOString r.date) _ (toISOString_clean r.date))
      (skipWs_cons ',' _ (by decide))]
    rw [s2]
    simp
  have hsr : stringifyResult r = lbraceChar ::
      (strFieldChunk (chars "date") (toISOString r.date) ++
        (',' :: (strFieldChunk (chars "event") r.event.data ++
          (',' :: (strFieldChunk (chars "action") r.action.data ++
            (',' :: (numFieldChunk (chars "entryPrice") r.entryPrice ++
              (',' :: (numFieldChunk (chars "exitPrice") r.exitPrice ++
                (',' :: (numFieldChunk (chars "profitOrLoss") r.profitOrLoss ++
                  (',' :: (numFieldChunk (chars "amountBTC") r.amountBTC ++
                    [rbraceChar]))))))))))))) := by
    simp [stringifyResult, List.append_assoc]
  rw [hsr]
  exact parseResultJson_shape _ _ quoteChar _ (strFieldChunk_append _ _ _)
    (by decide) (by decide) (by rw [hk]; simpa using s1 [])

theorem sample_dec_entry : Decimal4 (60000.25 : ℚ) := by
  rw [Decimal4, show |(60000.25 : ℚ)| * 10000 = ((600002500 : ℤ) : ℚ) from by
    rw [abs_of_pos (by norm_num)]; norm_num]
  exact Rat.den_intCast _

theorem sample_dec_exit : Decimal4 (58800.25 : ℚ) := by
  rw [Decimal4, show |(58800.25 : ℚ)| * 10000 = ((588002500 : ℤ) : ℚ) from by
    rw [abs_of_pos (by norm_num)]; norm_num]
  exact Rat.den_intCast _

theorem sample_dec_pol : Decimal4 (-123.5 : ℚ) := by
  rw [Decimal4, show |(-123.5 : ℚ)| * 10000 = ((1235000 : ℤ) : ℚ) from by
    rw [abs_of_neg (by norm_num)]; norm_num]
  exact Rat.den_intCast _

theorem sample_dec_btc : Decimal4 (16.6667 : ℚ) := by
  rw [Decimal4, show |(16.6667 : ℚ)| * 10000 = ((166667 : ℤ) : ℚ) from by
    rw [abs_of_pos (by norm_num)]; norm_num]
  exact Rat.den_intCast _

/-- Claim C7 (amended): serializing a backtest record to the persisted JSON format and
re-reading it with the file reader preserves every string field and every numeric
field exactly, but the `date` field comes back as the ISO-8601 string that
`JSON.stringify` produced from the `Date` object, not as a `Date`. -/
theorem c7_theorem (r : Result) (he : CleanStr r.event.data) (ha : CleanStr r.action.data)
    (h1 : Decimal4 r.entryPrice) (h2 : Decimal4 r.exitPrice)
    (h3 : Decimal4 r.profitOrLoss) (h4 : Decimal4 r.amountBTC) :
    rereadFields r =
      some [(chars "date", JsValue.str (toISOString r.date)),
            (chars "event", JsValue.str r.event.data),
            (chars "action", JsValue.str r.action.data),
            (chars "entryPrice", JsValue.num r.entryPrice),
            (chars "exitPrice", JsValue.num r.exitPrice),
            (chars "profitOrLoss", JsValue.num r.profitOrLoss),
            (chars "amountBTC", JsValue.num r.amountBTC)] := by
  simp only [rereadFields, parseResultJson_stringify r he ha h1 h2 h3 h4]
  simp [jsValueOfScalar]

/-- Claim C7, witness: the amended round-trip theorem instantiated at the concrete
record `sampleResult`. -/
theorem c7_witness :
    rereadFields sampleResult =
      some [(chars "date", JsValue.str (toISOString sampleResult.date)),
            (chars "event", JsValue.str sampleResult.event.data),
            (chars "action", JsValue.str sampleResult.action.data),
            (chars "entryPrice", JsValue.num sampleResult.entryPrice),
            (chars "exitPrice", JsValue.num sampleResult.exitPrice),
            (chars "profitOrLoss", JsValue.num sampleResult.profitOrLoss),
            (chars "amountBTC", JsValue.num sampleResult.amountBTC)] :=
  c7_theorem sampleResult (by unfold CleanStr; decide) (by unfold CleanStr; decide)
    sample_dec_entry sample_dec_exit sample_dec_pol sample_dec_btc

/-- Claim C7, counterexample: for the concrete record `sampleResult`, serializing and
re-reading does not reproduce the record field for field - the `date` field comes
back as a plain string instead of the `Date` object stored in memory. -/
theorem c7_counterexample :
    rereadFields sampleResult ≠ some (runtimeFields sampleResult) := by
  have h : rereadFields sampleResult =
      some [(chars "date", JsValue.str (toISOString sampleResult.date)),
            (chars "event", JsValue.str sampleResult.event.data),
            (chars "action", JsValue.str sampleResult.action.data),
            (chars "entryPrice", JsValue.num sampleResult.entryPrice),
            (chars "exitPrice", JsValue.num sampleResult.exitPrice),
            (chars "profitOrLoss", JsValue.num sampleResult.profitOrLoss),
            (chars "amountBTC", JsValue.num sampleResult.amountBTC)] := by
    simp only [rereadFields, parseResultJson_stringify sampleResult
      (by unfold CleanStr; decide) (by unfold CleanStr; decide)
      sample_dec_entry sample_dec_exit sample_dec_pol sample_dec_btc]
    simp [jsValueOfScalar]
  rw [h]
  intro heq
  simp [runtimeFields] at heq

end PulseWave
